import Mathlib

/- Shallow embedding of the evaluation-acm-ccr-2019 package: the parallel
   treewidth parameter-sweep runner (treewidth_computation_experiments.py) and
   the result-reduction pipeline (plot_data.py).  Python dicts are modelled as
   association lists with insertion-order semantics; floating point demands,
   probabilities and routing variables are modelled as rationals; Python
   exceptions (KeyError, ValueError, AssertionError, FileNotFoundError) are
   modelled by Option-valued functions returning none. -/

namespace CCR

/- Association-list model of a Python dict: lookup finds the first (unique)
   matching key, setting an existing key updates it in place, setting a fresh
   key appends it (Python dicts preserve insertion order). -/

def dlookup {α β : Type} [DecidableEq α] : List (α × β) → α → Option β
  | [], _ => none
  | (k1, v1) :: rest, k => if k1 = k then some v1 else dlookup rest k

def containsKey {α β : Type} [DecidableEq α] (d : List (α × β)) (k : α) : Bool :=
  (dlookup d k).isSome

def dset {α β : Type} [DecidableEq α] : List (α × β) → α → β → List (α × β)
  | [], k, v => [(k, v)]
  | (k1, v1) :: rest, k, v =>
      if k1 = k then (k1, v) :: rest else (k1, v1) :: dset rest k v

theorem dlookup_dset {α β : Type} [DecidableEq α] (d : List (α × β)) (k : α) (v : β) (j : α) :
    dlookup (dset d k v) j = if k = j then some v else dlookup d j := by
  induction d with
  | nil => simp [dset, dlookup]
  | cons hd tl ih =>
      obtain ⟨k1, v1⟩ := hd
      by_cases h1 : k1 = k
      · subst h1
        by_cases h2 : k1 = j <;> simp [dset, dlookup, h2]
      · by_cases h2 : k1 = j
        · subst h2
          have : ¬ k = k1 := fun h => h1 h.symm
          simp [dset, dlookup, h1, this]
        · simp [dset, dlookup, h1, h2, ih]

theorem mem_map_fst_iff_containsKey {α β : Type} [DecidableEq α]
    (d : List (α × β)) (k : α) : k ∈ d.map Prod.fst ↔ containsKey d k = true := by
  induction d with
  | nil => simp [containsKey, dlookup]
  | cons hd tl ih =>
      obtain ⟨k1, v1⟩ := hd
      by_cases h : k1 = k
      · simp [containsKey, dlookup, h]
      · have h2 : ¬ k = k1 := fun hh => h hh.symm
        simp [containsKey, dlookup, h, h2, ih]

theorem map_fst_dset_of_containsKey {α β : Type} [DecidableEq α]
    (d : List (α × β)) (k : α) (v : β) (h : containsKey d k = true) :
    (dset d k v).map Prod.fst = d.map Prod.fst := by
  induction d with
  | nil => simp [containsKey, dlookup] at h
  | cons hd tl ih =>
      obtain ⟨k1, v1⟩ := hd
      by_cases h1 : k1 = k
      · simp [dset, h1]
      · simp [containsKey, dlookup, h1] at h
        simp [dset, h1, ih h]

/- ----------------------------------------------------------------------- -/
/- treewidth_computation_experiments.py : parameter sweep and partitioning -/
/- ----------------------------------------------------------------------- -/

/- A work item of the sweep: one point of the cross product
   number_of_nodes x probability x repetition index (the tuple `params`
   produced by itertools.product in execute_single_experiment). -/
structure WorkItem where
  num_nodes : Nat
  edge_probability : ℚ
  repetition_index : Nat
deriving DecidableEq

/- itertools.product(num_nodes_list, connection_probabilities_list,
   list(range(repetitions))) in lexicographic order. -/
def workItems (numNodesList : List Nat) (probList : List ℚ) (repetitions : Nat) :
    List WorkItem :=
  numNodesList.flatMap fun n =>
    probList.flatMap fun p =>
      (List.range repetitions).map fun r => ⟨n, p, r⟩

/- The (global index, work item) pairs a single worker process handles:
   enumerate(...) filtered by `repetition_index % num_processes == process_index`
   (execute_single_experiment, lines 162-168). -/
def assignedPairs (numNodesList : List Nat) (probList : List ℚ) (repetitions : Nat)
    (numProcesses processIndex : Nat) : List (Nat × WorkItem) :=
  (workItems numNodesList probList repetitions).enum.filter
    fun kp => decide (kp.1 % numProcesses = processIndex)

theorem sum_range_indicator (c j m : Nat) (hj : j < m) :
    ((List.range m).map fun i => if j = i then c else 0).sum = c := by
  induction m with
  | zero => omega
  | succ m ih =>
      rw [List.range_succ, List.map_append, List.sum_append]
      by_cases h : j = m
      · subst h
        have hz : ((List.range j).map fun i => if j = i then c else 0).sum = 0 := by
          apply List.sum_eq_zero
          intro x hx
          simp only [List.mem_map] at hx
          obtain ⟨i, hi, rfl⟩ := hx
          have : i < j := List.mem_range.mp hi
          simp [Nat.ne_of_gt this]
        simp [hz]
      · have hjm : j < m := by omega
        simp [ih hjm, h]

/-- C1: for every parameter space and every worker count W > 0, the work items
processed across the W workers cover the cross product of node counts,
probabilities and repetition indices exactly once: the multiset union of the
per-worker assigned (index, item) pairs equals the enumerated cross product,
and worker i processes exactly the pairs whose global index k satisfies
i = k % W (a deterministic function of the index modulo W). -/
theorem executeSingleExperiment_partitions
    (numNodesList : List Nat) (probList : List ℚ) (repetitions W : Nat)
    (hW : 0 < W) :
    (∀ p : Nat × WorkItem,
        List.count p
          ((List.range W).flatMap fun i =>
            assignedPairs numNodesList probList repetitions W i)
          = List.count p (workItems numNodesList probList repetitions).enum)
    ∧ (∀ (k : Nat) (item : WorkItem) (i : Nat), i < W →
        ((k, item) ∈ assignedPairs numNodesList probList repetitions W i
          ↔ (k, item) ∈ (workItems numNodesList probList repetitions).enum
              ∧ i = k % W)) := by
  constructor
  · intro p
    rw [List.count_flatMap]
    have hcase : ∀ i : Nat,
        (List.count p ∘ fun i => assignedPairs numNodesList probList repetitions W i) i
          = if p.1 % W = i then
              List.count p (workItems numNodesList probList repetitions).enum
            else 0 := by
      intro i
      simp only [Function.comp]
      by_cases h : p.1 % W = i
      · rw [if_pos h]
        apply List.count_filter
        simp [h]
      · rw [if_neg h]
        rw [List.count_eq_zero]
        intro hmem
        have := (List.mem_filter.mp hmem).2
        simp at this
        exact h this
    rw [List.map_congr_left fun i _ => hcase i]
    exact sum_range_indicator _ _ _ (Nat.mod_lt _ hW)
  · intro k item i hi
    constructor
    · intro hmem
      have h1 := List.mem_filter.mp hmem
      refine ⟨h1.1, ?_⟩
      have := h1.2
      simp at this
      exact this.symm
    · rintro ⟨hmem, rfl⟩
      exact List.mem_filter.mpr ⟨hmem, by simp⟩

/-- Witness for C1 at the parameter space with node counts [2, 3], probability
list [1/2], 2 repetitions and 2 workers. -/
theorem executeSingleExperiment_partitions_witness :
    0 < 2 ∧
    ((∀ p : Nat × WorkItem,
        List.count p
          ((List.range 2).flatMap fun i => assignedPairs [2, 3] [1/2] 2 2 i)
          = List.count p (workItems [2, 3] [1/2] 2).enum)
    ∧ (∀ (k : Nat) (item : WorkItem) (i : Nat), i < 2 →
        ((k, item) ∈ assignedPairs [2, 3] [1/2] 2 2 i
          ↔ (k, item) ∈ (workItems [2, 3] [1/2] 2).enum ∧ i = k % 2))) :=
  ⟨by decide, executeSingleExperiment_partitions [2, 3] [1/2] 2 2 (by decide)⟩

/- The record appended by a worker for one work item
   (class TreeDecompositionAlgorithmResult).  The wall-clock field
   runtime_treewidth_computation is real time measured by time.time() and is
   outside the scope of this embedding. -/
structure TreeDecompositionAlgorithmResult where
  num_nodes : Nat
  edge_probability : ℚ
  repetition_index : Nat
  treewidth : Option Nat
  undirected_graph_edge_representation : Option (List (String × String))
deriving DecidableEq

/- One insertion step of combine_results_to_overall_pickle: result_dict is the
   nested dict num_nodes -> edge_probability -> list, modelled as a total
   function defaulting to [] (the code creates the intermediate dict/list on
   first use). -/
def insertResult (d : Nat × ℚ → List TreeDecompositionAlgorithmResult)
    (r : TreeDecompositionAlgorithmResult) :
    Nat × ℚ → List TreeDecompositionAlgorithmResult :=
  fun key =>
    if key = (r.num_nodes, r.edge_probability) then d key ++ [r] else d key

/- combine_results_to_overall_pickle (lines 114-133): read every worker log in
   order, insert each deserialized record into the nested index. -/
def combine_results_to_overall_pickle
    (logs : List (List TreeDecompositionAlgorithmResult)) :
    Nat × ℚ → List TreeDecompositionAlgorithmResult :=
  logs.foldl (fun d recs => recs.foldl insertResult d) (fun _ => [])

theorem foldl_insertResult (recs : List TreeDecompositionAlgorithmResult)
    (d : Nat × ℚ → List TreeDecompositionAlgorithmResult) (key : Nat × ℚ) :
    (recs.foldl insertResult d) key
      = d key ++ recs.filter fun r => decide ((r.num_nodes, r.edge_probability) = key) := by
  induction recs generalizing d with
  | nil => simp
  | cons r rest ih =>
      rw [List.foldl_cons, ih]
      by_cases h : (r.num_nodes, r.edge_probability) = key
      · rw [List.filter_cons, if_pos (by simpa using h)]
        simp only [insertResult, if_pos h.symm]
        simp
      · have h2 : ¬ key = (r.num_nodes, r.edge_probability) := fun hh => h hh.symm
        rw [List.filter_cons, if_neg (by simpa using h)]
        simp only [insertResult, if_neg h2]

theorem combine_results_eq_filter_flatten
    (logs : List (List TreeDecompositionAlgorithmResult)) (key : Nat × ℚ) :
    combine_results_to_overall_pickle logs key
      = logs.flatten.filter fun r => decide ((r.num_nodes, r.edge_probability) = key) := by
  suffices h : ∀ d : Nat × ℚ → List TreeDecompositionAlgorithmResult,
      (logs.foldl (fun d recs => recs.foldl insertResult d) d) key
        = d key ++ logs.flatten.filter fun r => decide ((r.num_nodes, r.edge_probability) = key) by
    simpa [combine_results_to_overall_pickle] using h fun _ => []
  induction logs with
  | nil => intro d; simp
  | cons l rest ih =>
      intro d
      rw [List.foldl_cons, ih, foldl_insertResult]
      simp [List.filter_append]

/-- C7: the aggregated index of combine_results_to_overall_pickle is
order-independent with respect to which worker log is read first: for every
(num_nodes, edge_probability) key, the sequence of records at that key, viewed
as an unordered multiset, is identical for any two read orders of the logs. -/
theorem combine_results_order_independent
    (logs1 logs2 : List (List TreeDecompositionAlgorithmResult))
    (h : logs1.Perm logs2) :
    ∀ key : Nat × ℚ,
      (combine_results_to_overall_pickle logs1 key : Multiset TreeDecompositionAlgorithmResult)
        = (combine_results_to_overall_pickle logs2 key : Multiset TreeDecompositionAlgorithmResult) := by
  intro key
  rw [Multiset.coe_eq_coe, combine_results_eq_filter_flatten, combine_results_eq_filter_flatten]
  exact h.flatten.filter _

/- Two sample worker-log records used by the C7 witness. -/
def sampleResultA : TreeDecompositionAlgorithmResult :=
  { num_nodes := 5, edge_probability := 1/2, repetition_index := 0,
    treewidth := some 2, undirected_graph_edge_representation := none }

def sampleResultB : TreeDecompositionAlgorithmResult :=
  { num_nodes := 5, edge_probability := 1/2, repetition_index := 1,
    treewidth := none, undirected_graph_edge_representation := none }

/-- Witness for C7 on two concrete worker logs read in the two possible
orders. -/
theorem combine_results_order_independent_witness :
    ([[sampleResultA], [sampleResultB]].Perm [[sampleResultB], [sampleResultA]])
    ∧ ∀ key : Nat × ℚ,
      (combine_results_to_overall_pickle [[sampleResultA], [sampleResultB]] key
        : Multiset TreeDecompositionAlgorithmResult)
        = (combine_results_to_overall_pickle [[sampleResultB], [sampleResultA]] key
        : Multiset TreeDecompositionAlgorithmResult) :=
  ⟨List.Perm.swap _ _ _,
   combine_results_order_independent _ _ (List.Perm.swap _ _ _)⟩

/- ------------------------------------------------------------------ -/
/- Worker execution model for execute_single_experiment (lines 136-217) -/
/- ------------------------------------------------------------------ -/

/- The opaque outcome of twm.compute_tree_decomposition for a work item's
   generated graph: absent on timeout/failure, otherwise exposing width and the
   validity predicate is_tree_decomposition(graph). -/
structure TreeDecomp where
  width : Nat
  is_tree_decomposition : Bool
deriving DecidableEq

/- Everything the external collaborators determine for one work item: the
   decomposition outcome, the graph's get_edge_representation(), and
   datamodel.is_connected_undirected_edge_representation of it. -/
structure ItemEnv where
  tree_decomp : Option TreeDecomp
  edge_representation : List (String × String)
  connected : Bool

/- The assert on a present decomposition passes iff it validates against its
   graph; an absent decomposition (timeout) is fine. -/
def envValid (e : ItemEnv) : Bool :=
  match e.tree_decomp with
  | some td => td.is_tree_decomposition
  | none => true

/- The body of the work-item loop of execute_single_experiment (lines
   168-210): compute the decomposition, assert validity if present (an invalid
   one raises: none), resolve the optional retained edge representation, and
   build the result record. -/
def processItem (env : WorkItem → ItemEnv) (store_graphs_of_treewidth : List Nat)
    (store_only_connected_graphs : Bool) (item : WorkItem) :
    Option TreeDecompositionAlgorithmResult :=
  match (env item).tree_decomp with
  | none =>
      some { num_nodes := item.num_nodes, edge_probability := item.edge_probability,
             repetition_index := item.repetition_index, treewidth := none,
             undirected_graph_edge_representation := none }
  | some td =>
      if td.is_tree_decomposition then
        some { num_nodes := item.num_nodes, edge_probability := item.edge_probability,
               repetition_index := item.repetition_index, treewidth := some td.width,
               undirected_graph_edge_representation :=
                 if td.width ∈ store_graphs_of_treewidth then
                   if store_only_connected_graphs && !(env item).connected then none
                   else some (env item).edge_representation
                 else none }
      else none

/- Filesystem model: filename -> pickled record stream.  A file only exists
   once something opened it for writing. -/
abbrev FileSystem := List (String × List TreeDecompositionAlgorithmResult)

def readFile (fs : FileSystem) (fname : String) :
    List TreeDecompositionAlgorithmResult :=
  (dlookup fs fname).getD []

/- `with open(out_file, "ab") as f: pickle.dump(result, f)` — appends to the
   file, creating it on first open. -/
def appendRecord (fs : FileSystem) (fname : String)
    (r : TreeDecompositionAlgorithmResult) : FileSystem :=
  match dlookup fs fname with
  | some recs => dset fs fname (recs ++ [r])
  | none => fs ++ [(fname, [r])]

/- Processing of a list of work items by one worker, threading the filesystem:
   each item is processed and its record appended immediately. -/
def runWorkItems (env : WorkItem → ItemEnv) (store_graphs_of_treewidth : List Nat)
    (store_only_connected_graphs : Bool) (out_file : String)
    (items : List (Nat × WorkItem)) (fs : FileSystem) : Option FileSystem :=
  items.foldlM
    (fun fs1 kp =>
      (processItem env store_graphs_of_treewidth store_only_connected_graphs kp.2).map
        fun r => appendRecord fs1 out_file r)
    fs

/- execute_single_experiment for worker process_index of num_processes:
   iterate over the enumerated cross product, handling exactly the items whose
   index is congruent to process_index modulo num_processes. -/
def execute_single_experiment (env : WorkItem → ItemEnv)
    (store_graphs_of_treewidth : List Nat) (store_only_connected_graphs : Bool)
    (numNodesList : List Nat) (probList : List ℚ) (repetitions : Nat)
    (num_processes process_index : Nat) (out_file : String) (fs : FileSystem) :
    Option FileSystem :=
  runWorkItems env store_graphs_of_treewidth store_only_connected_graphs out_file
    (assignedPairs numNodesList probList repetitions num_processes process_index) fs

theorem dlookup_append {α β : Type} [DecidableEq α] (l1 l2 : List (α × β)) (k : α) :
    dlookup (l1 ++ l2) k = (dlookup l1 k).orElse fun _ => dlookup l2 k := by
  induction l1 with
  | nil => simp [dlookup]
  | cons hd tl ih =>
      obtain ⟨k1, v1⟩ := hd
      by_cases h : k1 = k <;> simp [dlookup, h, ih]

theorem readFile_appendRecord_self (fs : FileSystem) (fname : String)
    (r : TreeDecompositionAlgorithmResult) :
    readFile (appendRecord fs fname r) fname = readFile fs fname ++ [r] := by
  unfold appendRecord readFile
  cases h : dlookup fs fname with
  | some recs => simp [dlookup_dset, h]
  | none => simp [dlookup_append, h, dlookup]

theorem dlookup_appendRecord_other (fs : FileSystem) (fname g : String)
    (r : TreeDecompositionAlgorithmResult) (hne : g ≠ fname) :
    dlookup (appendRecord fs fname r) g = dlookup fs g := by
  unfold appendRecord
  have hne2 : ¬ fname = g := fun h => hne h.symm
  cases h : dlookup fs fname with
  | some recs => simp [dlookup_dset, h, hne2]
  | none => simp [dlookup_append, h, dlookup, hne2]

theorem runWorkItems_spec (env : WorkItem → ItemEnv) (sTW : List Nat) (sConn : Bool)
    (out_file : String) (items : List (Nat × WorkItem)) (fs : FileSystem)
    (hvalid : ∀ kp ∈ items, envValid (env kp.2) = true) :
    ∃ fs2 recs, runWorkItems env sTW sConn out_file items fs = some fs2
      ∧ readFile fs2 out_file = readFile fs out_file ++ recs
      ∧ (∀ g, g ≠ out_file → dlookup fs2 g = dlookup fs g)
      ∧ List.Forall₂
          (fun (kp : Nat × WorkItem) (r : TreeDecompositionAlgorithmResult) =>
            r.num_nodes = kp.2.num_nodes
            ∧ r.edge_probability = kp.2.edge_probability
            ∧ r.repetition_index = kp.2.repetition_index
            ∧ ((env kp.2).tree_decomp = none →
                r.treewidth = none ∧ r.undirected_graph_edge_representation = none))
          items recs := by
  induction items generalizing fs with
  | nil =>
      exact ⟨fs, [], rfl, by simp, fun g _ => rfl, List.Forall₂.nil⟩
  | cons kp rest ih =>
      have hv := hvalid kp (List.mem_cons_self _ _)
      have hrest : ∀ q ∈ rest, envValid (env q.2) = true :=
        fun q hq => hvalid q (List.mem_cons_of_mem _ hq)
      obtain ⟨r, hr, hri⟩ :
          ∃ r, processItem env sTW sConn kp.2 = some r
            ∧ (r.num_nodes = kp.2.num_nodes
               ∧ r.edge_probability = kp.2.edge_probability
               ∧ r.repetition_index = kp.2.repetition_index
               ∧ ((env kp.2).tree_decomp = none →
                   r.treewidth = none ∧ r.undirected_graph_edge_representation = none)) := by
        unfold envValid at hv
        cases hd : (env kp.2).tree_decomp with
        | none =>
            refine ⟨{ num_nodes := kp.2.num_nodes,
                      edge_probability := kp.2.edge_probability,
                      repetition_index := kp.2.repetition_index,
                      treewidth := none,
                      undirected_graph_edge_representation := none },
                    ?_, rfl, rfl, rfl, fun _ => ⟨rfl, rfl⟩⟩
            unfold processItem
            rw [hd]
        | some td =>
            rw [hd] at hv
            have hv2 : td.is_tree_decomposition = true := hv
            refine ⟨{ num_nodes := kp.2.num_nodes,
                      edge_probability := kp.2.edge_probability,
                      repetition_index := kp.2.repetition_index,
                      treewidth := some td.width,
                      undirected_graph_edge_representation :=
                        if td.width ∈ sTW then
                          if sConn && !(env kp.2).connected then none
                          else some (env kp.2).edge_representation
                        else none },
                    ?_, rfl, rfl, rfl,
                    fun habs => absurd habs (by simp)⟩
            unfold processItem
            rw [hd]
            simp [hv2]
      obtain ⟨fs2, recs, hrun, hread, hother, hall⟩ := ih (appendRecord fs out_file r) hrest
      refine ⟨fs2, r :: recs, ?_, ?_, ?_, List.Forall₂.cons hri hall⟩
      · unfold runWorkItems
        rw [List.foldlM_cons, hr]
        exact hrun
      · rw [hread, readFile_appendRecord_self]
        simp
      · intro g hg
        rw [hother g hg, dlookup_appendRecord_other fs out_file g r hg]

/-- C8: for every work item whose decomposition computation returns none
(timeout or failure), execute_single_experiment still appends a result record
for that very item with treewidth none and no retained graph representation,
and the worker continues through all of its remaining work items without
raising (the whole run succeeds and writes one record per assigned item, in
order). -/
theorem execute_single_experiment_timeout_recorded (env : WorkItem → ItemEnv)
    (sTW : List Nat) (sConn : Bool) (numNodesList : List Nat) (probList : List ℚ)
    (repetitions num_processes process_index : Nat) (out_file : String)
    (fs : FileSystem)
    (hvalid : ∀ kp ∈ assignedPairs numNodesList probList repetitions
        num_processes process_index, envValid (env kp.2) = true) :
    ∃ fs2 recs,
      execute_single_experiment env sTW sConn numNodesList probList repetitions
          num_processes process_index out_file fs = some fs2
      ∧ readFile fs2 out_file = readFile fs out_file ++ recs
      ∧ List.Forall₂
          (fun (kp : Nat × WorkItem) (r : TreeDecompositionAlgorithmResult) =>
            r.num_nodes = kp.2.num_nodes
            ∧ r.edge_probability = kp.2.edge_probability
            ∧ r.repetition_index = kp.2.repetition_index
            ∧ ((env kp.2).tree_decomp = none →
                r.treewidth = none ∧ r.undirected_graph_edge_representation = none))
          (assignedPairs numNodesList probList repetitions num_processes process_index)
          recs := by
  obtain ⟨fs2, recs, h1, h2, _, h4⟩ :=
    runWorkItems_spec env sTW sConn out_file
      (assignedPairs numNodesList probList repetitions num_processes process_index)
      fs hvalid
  exact ⟨fs2, recs, h1, h2, h4⟩

/-- Witness for C8: a single worker whose decomposition times out on every item
still records every item. -/
theorem execute_single_experiment_timeout_recorded_witness :
    (∀ kp ∈ assignedPairs [3] [1] 2 1 0,
        envValid ((fun _ => ⟨none, [], false⟩ : WorkItem → ItemEnv) kp.2) = true)
    ∧ ∃ fs2 recs,
      execute_single_experiment (fun _ => ⟨none, [], false⟩) [2] true [3] [1] 2 1 0
          "worker_0.pickle" [] = some fs2
      ∧ readFile fs2 "worker_0.pickle" = readFile [] "worker_0.pickle" ++ recs
      ∧ List.Forall₂
          (fun (kp : Nat × WorkItem) (r : TreeDecompositionAlgorithmResult) =>
            r.num_nodes = kp.2.num_nodes
            ∧ r.edge_probability = kp.2.edge_probability
            ∧ r.repetition_index = kp.2.repetition_index
            ∧ (((fun _ => ⟨none, [], false⟩ : WorkItem → ItemEnv) kp.2).tree_decomp = none →
                r.treewidth = none ∧ r.undirected_graph_edge_representation = none))
          (assignedPairs [3] [1] 2 1 0) recs :=
  ⟨by decide,
   execute_single_experiment_timeout_recorded (fun _ => ⟨none, [], false⟩) [2] true
     [3] [1] 2 1 0 "worker_0.pickle" [] (by decide)⟩

/- The coordinator run of start_experiments followed by
   combine_results_to_overall_pickle, on the filesystem: the workers share no
   state and write to distinct files, so the parallel run is modelled as the
   sequential composition of the worker processes. -/
def runAllWorkers (env : WorkItem → ItemEnv) (sTW : List Nat) (sConn : Bool)
    (numNodesList : List Nat) (probList : List ℚ) (repetitions W : Nat)
    (fname : Nat → String) : Option FileSystem :=
  (List.range W).foldlM
    (fun fs i =>
      execute_single_experiment env sTW sConn numNodesList probList repetitions
        W i (fname i) fs)
    []

/- combine_results_to_overall_pickle's file access: `with open(fname, "rb")`
   raises FileNotFoundError (none) when a worker log does not exist; otherwise
   every record stream is folded into the aggregate index. -/
def combine_results_from_files (fs : FileSystem) (fnames : List String) :
    Option (Nat × ℚ → List TreeDecompositionAlgorithmResult) :=
  (fnames.mapM fun f => dlookup fs f).map combine_results_to_overall_pickle

theorem dlookup_eq_none_of_not_containsKey {α β : Type} [DecidableEq α]
    (d : List (α × β)) (k : α) (h : containsKey d k = false) : dlookup d k = none := by
  unfold containsKey at h
  cases hl : dlookup d k with
  | none => rfl
  | some v => rw [hl] at h; simp at h

theorem mapM_eq_none_of_mem {α β : Type} (l : List α) (f : α → Option β) (x : α)
    (hx : x ∈ l) (hfx : f x = none) : l.mapM f = none := by
  induction l with
  | nil => cases hx
  | cons a rest ih =>
      rw [List.mapM_cons]
      rcases List.mem_cons.mp hx with h | h
      · subst h
        rw [hfx]
        rfl
      · cases ha : f a with
        | none => rfl
        | some b =>
            simp only [ha, ih h]
            rfl

theorem runWorkers_fold_spec (env : WorkItem → ItemEnv) (sTW : List Nat)
    (sConn : Bool) (numNodesList : List Nat) (probList : List ℚ)
    (repetitions W : Nat) (fname : Nat → String) (indices : List Nat)
    (fs : FileSystem)
    (hval : ∀ i ∈ indices, ∀ kp ∈ assignedPairs numNodesList probList repetitions W i,
        envValid (env kp.2) = true) :
    ∃ fs2,
      indices.foldlM
        (fun fs1 i =>
          execute_single_experiment env sTW sConn numNodesList probList repetitions
            W i (fname i) fs1) fs = some fs2
      ∧ ∀ g : String,
          (∀ i ∈ indices, fname i ≠ g
              ∨ assignedPairs numNodesList probList repetitions W i = []) →
          dlookup fs2 g = dlookup fs g := by
  induction indices generalizing fs with
  | nil => exact ⟨fs, rfl, fun g _ => rfl⟩
  | cons i rest ih =>
      obtain ⟨fs1, recs, hrun, _, hother, _⟩ :=
        runWorkItems_spec env sTW sConn (fname i)
          (assignedPairs numNodesList probList repetitions W i) fs
          (hval i (List.mem_cons_self _ _))
      obtain ⟨fs2, hrun2, hpres⟩ :=
        ih fs1 (fun j hj => hval j (List.mem_cons_of_mem _ hj))
      refine ⟨fs2, ?_, ?_⟩
      · rw [List.foldlM_cons]
        unfold execute_single_experiment
        rw [hrun]
        exact hrun2
      · intro g hg
        rw [hpres g (fun j hj => hg j (List.mem_cons_of_mem _ hj))]
        rcases hg i (List.mem_cons_self _ _) with hne | hempty
        · exact hother g (fun hh => hne hh.symm)
        · unfold runWorkItems at hrun
          rw [hempty] at hrun
          simp only [List.foldlM_nil] at hrun
          cases hrun
          rfl

/-- C10: when the worker count exceeds the number of work items, the worker
whose index equals the number of work items is assigned no work item, never
opens (and hence never creates) its output file, and
combine_results_to_overall_pickle subsequently fails with a file-open error on
that worker's missing log instead of treating it as an empty stream. -/
theorem combine_fails_on_missing_worker_log (env : WorkItem → ItemEnv)
    (sTW : List Nat) (sConn : Bool) (numNodesList : List Nat) (probList : List ℚ)
    (repetitions W N : Nat) (fname : Nat → String)
    (hNdef : N = (workItems numNodesList probList repetitions).length)
    (hNW : N < W)
    (hval : ∀ kp ∈ (workItems numNodesList probList repetitions).enum,
        envValid (env kp.2) = true)
    (hinj : ∀ i, i < W → fname i = fname N → i = N) :
    assignedPairs numNodesList probList repetitions W N = []
    ∧ ∃ fs2,
        runAllWorkers env sTW sConn numNodesList probList repetitions W fname
          = some fs2
        ∧ containsKey fs2 (fname N) = false
        ∧ combine_results_from_files fs2 ((List.range W).map fname) = none := by
  have hempty : assignedPairs numNodesList probList repetitions W N = [] := by
    unfold assignedPairs
    rw [List.filter_eq_nil_iff]
    intro kp hkp
    have hlt : kp.1 < N := by
      rw [hNdef]
      exact List.fst_lt_of_mem_enum hkp
    have : kp.1 % W = kp.1 := Nat.mod_eq_of_lt (lt_trans hlt hNW)
    simp [this]
    omega
  refine ⟨hempty, ?_⟩
  obtain ⟨fs2, hrun, hpres⟩ :=
    runWorkers_fold_spec env sTW sConn numNodesList probList repetitions W fname
      (List.range W) []
      (fun i _ kp hkp => hval kp (List.mem_of_mem_filter hkp))
  have hnone : dlookup fs2 (fname N) = none := by
    rw [hpres (fname N) ?_]
    · rfl
    · intro i hi
      by_cases heq : i = N
      · subst heq
        exact Or.inr hempty
      · exact Or.inl fun hh => heq (hinj i (List.mem_range.mp hi) hh)
  refine ⟨fs2, hrun, ?_, ?_⟩
  · unfold containsKey
    rw [hnone]
    rfl
  · unfold combine_results_from_files
    rw [mapM_eq_none_of_mem _ _ (fname N)
      (List.mem_map_of_mem fname (List.mem_range.mpr hNW)) hnone]
    rfl

/-- Witness for C10: one work item, two workers; worker 1 gets no items and
aggregation fails on its missing log. -/
theorem combine_fails_on_missing_worker_log_witness :
    (1 = (workItems [3] [1] 1).length ∧ 1 < 2
      ∧ (∀ kp ∈ (workItems [3] [1] 1).enum,
          envValid ((fun _ => ⟨none, [], false⟩ : WorkItem → ItemEnv) kp.2) = true)
      ∧ (∀ i, i < 2 →
          (fun i => if i = 0 then "worker_0.pickle" else "worker_1.pickle") i
            = (fun i => if i = 0 then "worker_0.pickle" else "worker_1.pickle") 1 → i = 1))
    ∧ (assignedPairs [3] [1] 1 2 1 = []
      ∧ ∃ fs2,
          runAllWorkers (fun _ => ⟨none, [], false⟩) [] false [3] [1] 1 2
            (fun i => if i = 0 then "worker_0.pickle" else "worker_1.pickle")
            = some fs2
          ∧ containsKey fs2
              ((fun i => if i = 0 then "worker_0.pickle" else "worker_1.pickle") 1) = false
          ∧ combine_results_from_files fs2
              ((List.range 2).map
                (fun i => if i = 0 then "worker_0.pickle" else "worker_1.pickle")) = none) :=
  ⟨⟨by decide, by decide, by decide, by decide⟩,
   combine_fails_on_missing_worker_log (fun _ => ⟨none, [], false⟩) [] false
     [3] [1] 1 2 1 (fun i => if i = 0 then "worker_0.pickle" else "worker_1.pickle")
     (by decide) (by decide) (by decide) (by decide)⟩

/- ------------------------------------------------------------- -/
/- start_experiments parameter-space handling (lines 71-88)       -/
/- ------------------------------------------------------------- -/

/- A value of the YAML parameter space. -/
inductive PVal where
  | nat (n : Nat)
  | rat (q : ℚ)
  | natList (l : List Nat)
  | ratList (l : List ℚ)
  | bool (b : Bool)
deriving DecidableEq

abbrev ParameterSpace := List (String × PVal)

/- Python `del d[k]`. -/
def ddel {α β : Type} [DecidableEq α] (d : List (α × β)) (k : α) : List (α × β) :=
  d.filter fun p => decide (¬ p.1 = k)

/- The state of the caller's scenario_parameter_space dict after
   start_experiments has consumed it: the function reads and deletes
   'scenario_repetition' and 'random_seed_base' when present, and only reads
   'store_graphs_of_treewidth' and 'store_only_connected_graphs'. -/
def start_experiments_space (scenario_parameter_space : ParameterSpace) :
    ParameterSpace :=
  let sp1 :=
    if containsKey scenario_parameter_space "scenario_repetition" then
      ddel scenario_parameter_space "scenario_repetition"
    else scenario_parameter_space
  if containsKey sp1 "random_seed_base" then ddel sp1 "random_seed_base" else sp1

theorem dlookup_ddel_self {α β : Type} [DecidableEq α] (d : List (α × β)) (k : α) :
    dlookup (ddel d k) k = none := by
  induction d with
  | nil => rfl
  | cons hd tl ih =>
      obtain ⟨k1, v1⟩ := hd
      by_cases h : k1 = k
      · simpa [ddel, List.filter_cons, h] using ih
      · simpa [ddel, List.filter_cons, h, dlookup] using ih

theorem dlookup_ddel_ne {α β : Type} [DecidableEq α] (d : List (α × β)) (k j : α)
    (hne : j ≠ k) : dlookup (ddel d k) j = dlookup d j := by
  induction d with
  | nil => rfl
  | cons hd tl ih =>
      obtain ⟨k1, v1⟩ := hd
      by_cases h : k1 = k
      · subst h
        have h2 : ¬ k1 = j := fun hh => hne hh.symm
        simpa [ddel, List.filter_cons, dlookup, h2] using ih
      · by_cases h2 : k1 = j
        · simp [ddel, List.filter_cons, dlookup, h, h2, hne]
        · simpa [ddel, List.filter_cons, dlookup, h, h2] using ih

/-- C9 counterexample: start_experiments does not leave the caller's parameter
space unchanged — a mapping containing the key 'scenario_repetition' has that
key removed. -/
theorem start_experiments_space_counterexample :
    start_experiments_space
        [("scenario_repetition", PVal.nat 5), ("number_of_nodes", PVal.natList [10])]
      ≠ [("scenario_repetition", PVal.nat 5), ("number_of_nodes", PVal.natList [10])] := by
  decide

/-- C9 (amended): start_experiments removes the keys 'scenario_repetition' and
'random_seed_base' from the caller's parameter-space mapping when present, and
leaves every other key bound to its original value (no other key is added,
removed, or rebound). -/
theorem start_experiments_space_spec (sp : ParameterSpace) :
    dlookup (start_experiments_space sp) "scenario_repetition" = none
    ∧ dlookup (start_experiments_space sp) "random_seed_base" = none
    ∧ ∀ k : String, k ≠ "scenario_repetition" → k ≠ "random_seed_base" →
        dlookup (start_experiments_space sp) k = dlookup sp k := by
  have hsr : "scenario_repetition" ≠ "random_seed_base" := by decide
  unfold start_experiments_space
  by_cases h1 : containsKey sp "scenario_repetition"
  · rw [if_pos h1]
    by_cases h2 : containsKey (ddel sp "scenario_repetition") "random_seed_base"
    · rw [if_pos h2]
      refine ⟨?_, dlookup_ddel_self _ _, ?_⟩
      · rw [dlookup_ddel_ne _ _ _ hsr]
        exact dlookup_ddel_self _ _
      · intro k hk1 hk2
        rw [dlookup_ddel_ne _ _ _ hk2, dlookup_ddel_ne _ _ _ hk1]
    · rw [if_neg h2]
      refine ⟨dlookup_ddel_self _ _, ?_, ?_⟩
      · exact dlookup_eq_none_of_not_containsKey _ _ (Bool.eq_false_iff.mpr h2)
      · intro k hk1 _
        rw [dlookup_ddel_ne _ _ _ hk1]
  · rw [if_neg h1]
    have hnone1 : dlookup sp "scenario_repetition" = none :=
      dlookup_eq_none_of_not_containsKey _ _ (Bool.eq_false_iff.mpr h1)
    by_cases h2 : containsKey sp "random_seed_base"
    · rw [if_pos h2]
      refine ⟨?_, dlookup_ddel_self _ _, ?_⟩
      · rw [dlookup_ddel_ne _ _ _ hsr]
        exact hnone1
      · intro k _ hk2
        rw [dlookup_ddel_ne _ _ _ hk2]
    · rw [if_neg h2]
      refine ⟨hnone1, ?_, fun k _ _ => rfl⟩
      exact dlookup_eq_none_of_not_containsKey _ _ (Bool.eq_false_iff.mpr h2)

/-- Witness for C9's amended theorem at a concrete parameter space and key. -/
theorem start_experiments_space_spec_witness :
    dlookup (start_experiments_space
        [("scenario_repetition", PVal.nat 5), ("number_of_nodes", PVal.natList [10])])
        "scenario_repetition" = none
    ∧ dlookup (start_experiments_space
        [("scenario_repetition", PVal.nat 5), ("number_of_nodes", PVal.natList [10])])
        "number_of_nodes"
      = dlookup [("scenario_repetition", PVal.nat 5), ("number_of_nodes", PVal.natList [10])]
          "number_of_nodes" :=
  ⟨(start_experiments_space_spec _).1,
   (start_experiments_space_spec _).2.2 "number_of_nodes" (by decide) (by decide)⟩

/- ------------------------------------------------------------------- -/
/- plot_data.py : load dictionaries and the result-reduction pipeline    -/
/- ------------------------------------------------------------------- -/

/- A LoadMap key is a pair of strings: either a substrate edge (u, v) or a
   (node-type, node) pair — in Python both are 2-tuples in the same dict. -/
abbrev LoadKey := String × String

abbrev LoadDict := List (LoadKey × ℚ)

/- The value stored at a key (only meaningful when the key is present). -/
def dval (d : LoadDict) (k : LoadKey) : ℚ :=
  (dlookup d k).getD 0

/- Python `load[k] += x`: raises KeyError (none) when k is absent. -/
def dadd (d : LoadDict) (k : LoadKey) (x : ℚ) : Option LoadDict :=
  (dlookup d k).map fun v => dset d k (v + x)

/- A sequence of `load[k] += x` updates, one per list element, in order. -/
def applyUpdates (d : LoadDict) (us : List (LoadKey × ℚ)) : Option LoadDict :=
  us.foldlM (fun d1 p => dadd d1 p.1 p.2) d

theorem dadd_spec (d : LoadDict) (k : LoadKey) (x : ℚ)
    (h : containsKey d k = true) :
    ∃ d2, dadd d k x = some d2
      ∧ d2.map Prod.fst = d.map Prod.fst
      ∧ ∀ j, dval d2 j = dval d j + (if k = j then x else 0) := by
  unfold containsKey at h
  cases hl : dlookup d k with
  | none => rw [hl] at h; simp at h
  | some v =>
      refine ⟨dset d k (v + x), by rw [dadd, hl]; rfl,
        map_fst_dset_of_containsKey d k (v + x) (by unfold containsKey; rw [hl]; rfl), ?_⟩
      intro j
      by_cases hj : k = j
      · subst hj
        simp [dval, dlookup_dset, hl]
      · simp [dval, dlookup_dset, hj]

theorem applyUpdates_spec (us : List (LoadKey × ℚ)) (d : LoadDict)
    (h : ∀ p ∈ us, containsKey d p.1 = true) :
    ∃ d2, applyUpdates d us = some d2
      ∧ d2.map Prod.fst = d.map Prod.fst
      ∧ ∀ k, dval d2 k
          = dval d k + ((us.filter fun p => decide (p.1 = k)).map Prod.snd).sum := by
  induction us generalizing d with
  | nil => exact ⟨d, rfl, rfl, by simp⟩
  | cons p rest ih =>
      obtain ⟨d1, hd1, hkeys1, hval1⟩ :=
        dadd_spec d p.1 p.2 (h p (List.mem_cons_self _ _))
      have hrest : ∀ q ∈ rest, containsKey d1 q.1 = true := by
        intro q hq
        have := h q (List.mem_cons_of_mem _ hq)
        rw [← mem_map_fst_iff_containsKey] at this ⊢
        rw [hkeys1]
        exact this
      obtain ⟨d2, hd2, hkeys2, hval2⟩ := ih d1 hrest
      refine ⟨d2, ?_, hkeys2.trans hkeys1, ?_⟩
      · unfold applyUpdates at hd2 ⊢
        rw [List.foldlM_cons, hd1]
        exact hd2
      · intro k
        rw [hval2 k, hval1 k, List.filter_cons]
        by_cases hk : p.1 = k
        · rw [if_pos hk, if_pos (show decide (p.1 = k) = true by simpa using hk)]
          simp [add_comm, add_assoc, add_left_comm]
        · rw [if_neg hk, if_neg (show ¬ decide (p.1 = k) = true by simpa using hk)]
          simp

/- The substrate of a scenario: nodes, directed edges, and per-node supported
   resource types (scenario.substrate.node[u]['supported_types']). -/
structure Substrate where
  nodes : List String
  edges : List (String × String)
  supported_types : String → List String

/- A request: virtual nodes/edges are strings / string pairs; demands, types
   and profit are exposed through the interface used by plot_data. -/
structure Request where
  id : String
  profit : ℚ
  get_node_demand : String → ℚ
  get_type : String → String
  get_edge_demand : String × String → ℚ

structure Scenario where
  substrate : Substrate
  requests : List Request

/- _initialize_load_dict (lines 281-286): a dict over all substrate edges at
   0.0, then (type, node) keys at 0.0 for every node and supported type. -/
def initialize_load_dict (scenario : Scenario) : LoadDict :=
  let base := scenario.substrate.edges.foldl (fun d uv => dset d uv 0) []
  scenario.substrate.nodes.foldl
    (fun d u =>
      (scenario.substrate.supported_types u).foldl (fun d2 t => dset d2 (t, u) 0) d)
    base

theorem foldl_dset_zero_lookup (keys : List LoadKey) (d0 : LoadDict) (k : LoadKey) :
    dlookup (keys.foldl (fun d k1 => dset d k1 0) d0) k
      = if k ∈ keys then some 0 else dlookup d0 k := by
  induction keys generalizing d0 with
  | nil => simp
  | cons k1 rest ih =>
      rw [List.foldl_cons, ih]
      by_cases h1 : k ∈ rest
      · simp [h1]
      · by_cases h2 : k1 = k
        · subst h2
          simp [h1, dlookup_dset]
        · simp [h1, h2, dlookup_dset, Ne.symm h2]

theorem nested_foldl_dset (nodes : List String) (types : String → List String)
    (d0 : LoadDict) :
    nodes.foldl
        (fun d u => (types u).foldl (fun d2 t => dset d2 (t, u) 0) d) d0
      = (nodes.flatMap fun u => (types u).map fun t => ((t, u) : LoadKey)).foldl
          (fun d k => dset d k 0) d0 := by
  induction nodes generalizing d0 with
  | nil => simp
  | cons u rest ih =>
      rw [List.foldl_cons, List.flatMap_cons, List.foldl_append, ih, List.foldl_map]

theorem initialize_load_dict_lookup (scenario : Scenario) (k : LoadKey) :
    dlookup (initialize_load_dict scenario) k
      = if k ∈ (scenario.substrate.nodes.flatMap fun u =>
            (scenario.substrate.supported_types u).map fun t => ((t, u) : LoadKey))
        then some 0
        else if k ∈ scenario.substrate.edges then some 0 else none := by
  unfold initialize_load_dict
  rw [nested_foldl_dset, foldl_dset_zero_lookup, foldl_dset_zero_lookup]
  rfl

/-- C6: immediately after _initialize_load_dict returns, the load dictionary
contains every substrate edge (u, v) and every (supported-type, node) pair of
the scenario as a key with value 0.0, and no other keys, before any mapping
load is applied. -/
theorem initialize_load_dict_spec (scenario : Scenario) :
    (∀ uv ∈ scenario.substrate.edges,
        dlookup (initialize_load_dict scenario) uv = some 0)
    ∧ (∀ u ∈ scenario.substrate.nodes,
        ∀ t ∈ scenario.substrate.supported_types u,
          dlookup (initialize_load_dict scenario) (t, u) = some 0)
    ∧ (∀ k, containsKey (initialize_load_dict scenario) k = true →
        k ∈ scenario.substrate.edges
        ∨ ∃ u ∈ scenario.substrate.nodes,
            ∃ t ∈ scenario.substrate.supported_types u, k = (t, u))
    ∧ (∀ k v, dlookup (initialize_load_dict scenario) k = some v → v = 0) := by
  refine ⟨?_, ?_, ?_, ?_⟩
  · intro uv huv
    rw [initialize_load_dict_lookup]
    by_cases h : uv ∈ scenario.substrate.nodes.flatMap fun u =>
        (scenario.substrate.supported_types u).map fun t => ((t, u) : LoadKey)
    · rw [if_pos h]
    · rw [if_neg h, if_pos huv]
  · intro u hu t ht
    rw [initialize_load_dict_lookup]
    rw [if_pos (List.mem_flatMap.mpr ⟨u, hu, List.mem_map_of_mem _ ht⟩)]
  · intro k hk
    unfold containsKey at hk
    rw [initialize_load_dict_lookup] at hk
    by_cases h : k ∈ scenario.substrate.nodes.flatMap fun u =>
        (scenario.substrate.supported_types u).map fun t => ((t, u) : LoadKey)
    · obtain ⟨u, hu, hmem⟩ := List.mem_flatMap.mp h
      obtain ⟨t, ht, hkt⟩ := List.mem_map.mp hmem
      exact Or.inr ⟨u, hu, t, ht, hkt.symm⟩
    · rw [if_neg h] at hk
      by_cases h2 : k ∈ scenario.substrate.edges
      · exact Or.inl h2
      · rw [if_neg h2] at hk
        simp at hk
  · intro k v hv
    rw [initialize_load_dict_lookup] at hv
    by_cases h : k ∈ scenario.substrate.nodes.flatMap fun u =>
        (scenario.substrate.supported_types u).map fun t => ((t, u) : LoadKey)
    · rw [if_pos h] at hv
      exact (Option.some.inj hv).symm
    · rw [if_neg h] at hv
      by_cases h2 : k ∈ scenario.substrate.edges
      · rw [if_pos h2] at hv
        exact (Option.some.inj hv).symm
      · rw [if_neg h2] at hv
        cases hv

/- A small concrete scenario used by witnesses: substrate nodes A, B with one
   edge (A, B); node A supports type cpu. -/
def witnessScenario : Scenario :=
  { substrate :=
      { nodes := ["A", "B"],
        edges := [("A", "B")],
        supported_types := fun u => if u = "A" then ["cpu"] else [] },
    requests := [] }

/-- Witness for C6 at a concrete scenario: the edge key and the (type, node)
key are present at 0.0. -/
theorem initialize_load_dict_spec_witness :
    ("A", "B") ∈ witnessScenario.substrate.edges
    ∧ dlookup (initialize_load_dict witnessScenario) ("A", "B") = some 0
    ∧ dlookup (initialize_load_dict witnessScenario) ("cpu", "A") = some 0 :=
  ⟨by decide,
   (initialize_load_dict_spec witnessScenario).1 ("A", "B") (by decide),
   (initialize_load_dict_spec witnessScenario).2.1 "A" (by decide) "cpu" (by decide)⟩

/- A request mapping, dispatched at runtime in _compute_mapping_load by
   isinstance: solutions.Mapping (unsplittable: each virtual edge maps to a
   list of substrate edges) versus vine.SplittableMapping (each virtual edge
   maps to a dict substrate-edge -> fractional routing variable). -/
inductive ReqMapping where
  | unsplittable (is_embedded : Bool) (mapping_nodes : List (String × String))
      (mapping_edges : List ((String × String) × List (String × String)))
  | splittable (is_embedded : Bool) (mapping_nodes : List (String × String))
      (mapping_edges : List ((String × String) × List ((String × String) × ℚ)))

def ReqMapping.isEmbedded : ReqMapping → Bool
  | .unsplittable e _ _ => e
  | .splittable e _ _ => e

def ReqMapping.mappingNodes : ReqMapping → List (String × String)
  | .unsplittable _ mn _ => mn
  | .splittable _ mn _ => mn

/- _compute_mapping_edge_load_unsplittable (lines 301-305): for each virtual
   edge ij, add its demand to every substrate edge on its mapped path. -/
def compute_mapping_edge_load_unsplittable (load : LoadDict) (req : Request)
    (mapping_edges : List ((String × String) × List (String × String))) :
    Option LoadDict :=
  applyUpdates load
    (mapping_edges.flatMap fun q => q.2.map fun uv => (uv, req.get_edge_demand q.1))

/- _compute_mapping_edge_load_splittable (lines 308-312): for each virtual
   edge ij, add demand * routing variable to each substrate edge. -/
def compute_mapping_edge_load_splittable (load : LoadDict) (req : Request)
    (mapping_edges : List ((String × String) × List ((String × String) × ℚ))) :
    Option LoadDict :=
  applyUpdates load
    (mapping_edges.flatMap fun q => q.2.map fun z => (z.1, req.get_edge_demand q.1 * z.2))

/- _compute_mapping_load (lines 289-298): first the node loads, then the edge
   loads of the mapping's kind. -/
def compute_mapping_load (load : LoadDict) (req : Request) (req_mapping : ReqMapping) :
    Option LoadDict :=
  match applyUpdates load
      (req_mapping.mappingNodes.map fun p =>
        ((req.get_type p.1, p.2), req.get_node_demand p.1)) with
  | none => none
  | some d =>
      match req_mapping with
      | .unsplittable _ _ me => compute_mapping_edge_load_unsplittable d req me
      | .splittable _ _ me => compute_mapping_edge_load_splittable d req me

/- Specification-side formulas for the total amount _compute_mapping_load adds
   at a key: per-key node-demand sum, and per-key edge-demand sum (full demand
   per traversal for unsplittable mappings, demand scaled by the routing
   variable for splittable ones). -/
def nodeContribution (req : Request) (mapping_nodes : List (String × String))
    (k : LoadKey) : ℚ :=
  ((mapping_nodes.filter fun p => decide ((req.get_type p.1, p.2) = k)).map
    fun p => req.get_node_demand p.1).sum

def edgeContribution (req : Request) (m : ReqMapping) (k : LoadKey) : ℚ :=
  match m with
  | .unsplittable _ _ me =>
      (me.map fun q =>
        req.get_edge_demand q.1 * ((q.2.filter fun uv => decide (uv = k)).length : ℚ)).sum
  | .splittable _ _ me =>
      (me.map fun q =>
        req.get_edge_demand q.1 * ((q.2.filter fun z => decide (z.1 = k)).map Prod.snd).sum).sum

def mappingContribution (req : Request) (m : ReqMapping) (k : LoadKey) : ℚ :=
  nodeContribution req m.mappingNodes k + edgeContribution req m k

/- All keys the mapping touches are present in the load dict (otherwise the
   Python code raises KeyError). -/
def mappingKeysOk (d : LoadDict) (req : Request) (m : ReqMapping) : Bool :=
  (m.mappingNodes.all fun p => containsKey d (req.get_type p.1, p.2)) &&
  (match m with
   | .unsplittable _ _ me => me.all fun q => q.2.all fun uv => containsKey d uv
   | .splittable _ _ me => me.all fun q => q.2.all fun z => containsKey d z.1)

theorem sum_filter_flatMap {α β : Type} (L : List α) (f : α → List β)
    (p : β → Bool) (g : β → ℚ) :
    (((L.flatMap f).filter p).map g).sum
      = (L.map fun a => (((f a).filter p).map g).sum).sum := by
  induction L with
  | nil => simp
  | cons a rest ih =>
      simp [List.flatMap_cons, List.filter_append, ih]

theorem sum_node_updates (req : Request) (mnodes : List (String × String))
    (k : LoadKey) :
    (((mnodes.map fun p => ((req.get_type p.1, p.2), req.get_node_demand p.1)).filter
        fun q => decide (q.1 = k)).map Prod.snd).sum
      = nodeContribution req mnodes k := by
  unfold nodeContribution
  induction mnodes with
  | nil => simp
  | cons p rest ih =>
      by_cases h : (req.get_type p.1, p.2) = k
      · simp [List.filter_cons, h, ih]
      · simp [List.filter_cons, h, ih]

theorem sum_unsplittable_inner (uvs : List (String × String)) (dem : ℚ) (k : LoadKey) :
    (((uvs.map fun uv => ((uv, dem) : LoadKey × ℚ)).filter
        fun p => decide (p.1 = k)).map Prod.snd).sum
      = dem * ((uvs.filter fun uv => decide (uv = k)).length : ℚ) := by
  induction uvs with
  | nil => simp
  | cons uv rest ih =>
      by_cases h : uv = k
      · simp [List.filter_cons, h, ih]
        ring
      · simp [List.filter_cons, h, ih]

theorem sum_splittable_inner (zs : List ((String × String) × ℚ)) (dem : ℚ)
    (k : LoadKey) :
    (((zs.map fun z => ((z.1, dem * z.2) : LoadKey × ℚ)).filter
        fun p => decide (p.1 = k)).map Prod.snd).sum
      = dem * ((zs.filter fun z => decide (z.1 = k)).map Prod.snd).sum := by
  induction zs with
  | nil => simp
  | cons z rest ih =>
      by_cases h : z.1 = k
      · simp [List.filter_cons, h, ih]
        ring
      · simp [List.filter_cons, h, ih]

/-- C2: _compute_mapping_load is total on a load dict containing every touched
key, preserves the key set, and adds at every key exactly the mapping's
contribution: the per-key node-demand sum plus, for an unsplittable mapping,
the full edge demand for each traversal of the key by a mapped path, and for
a splittable mapping, the edge demand multiplied by the fractional routing
variable of each entry at the key. -/
theorem compute_mapping_load_spec (load : LoadDict) (req : Request) (m : ReqMapping)
    (hk : mappingKeysOk load req m = true) :
    ∃ load2, compute_mapping_load load req m = some load2
      ∧ load2.map Prod.fst = load.map Prod.fst
      ∧ ∀ k, dval load2 k = dval load k + mappingContribution req m k := by
  unfold mappingKeysOk at hk
  rw [Bool.and_eq_true] at hk
  obtain ⟨hkn, hke⟩ := hk
  obtain ⟨d1, hd1, hkeys1, hval1⟩ :=
    applyUpdates_spec
      (m.mappingNodes.map fun p => ((req.get_type p.1, p.2), req.get_node_demand p.1))
      load
      (by
        intro q hq
        obtain ⟨p, hp, rfl⟩ := List.mem_map.mp hq
        exact List.all_eq_true.mp hkn p hp)
  have htransfer : ∀ j : LoadKey, containsKey d1 j = containsKey load j := by
    intro j
    cases hc : containsKey load j with
    | true =>
        rw [← mem_map_fst_iff_containsKey] at hc ⊢
        rw [hkeys1]
        exact hc
    | false =>
        cases hc2 : containsKey d1 j with
        | false => rfl
        | true =>
            rw [← mem_map_fst_iff_containsKey, hkeys1,
              mem_map_fst_iff_containsKey] at hc2
            rw [hc] at hc2
            cases hc2
  cases m with
  | unsplittable emb mn me =>
      obtain ⟨d2, hd2, hkeys2, hval2⟩ :=
        applyUpdates_spec
          (me.flatMap fun q => q.2.map fun uv => (uv, req.get_edge_demand q.1)) d1
          (by
            intro q hq
            obtain ⟨e, he, hq2⟩ := List.mem_flatMap.mp hq
            obtain ⟨uv, huv, rfl⟩ := List.mem_map.mp hq2
            rw [htransfer]
            exact List.all_eq_true.mp (List.all_eq_true.mp hke e he) uv huv)
      refine ⟨d2, ?_, hkeys2.trans hkeys1, ?_⟩
      · unfold compute_mapping_load
        rw [hd1]
        exact hd2
      · intro k
        rw [hval2 k, hval1 k]
        unfold mappingContribution
        rw [← sum_node_updates req (ReqMapping.unsplittable emb mn me).mappingNodes k]
        rw [add_assoc]
        congr 1
        rw [sum_filter_flatMap]
        have hrhs : edgeContribution req (ReqMapping.unsplittable emb mn me) k
            = (me.map fun q =>
                req.get_edge_demand q.1
                  * ((q.2.filter fun uv => decide (uv = k)).length : ℚ)).sum := rfl
        rw [hrhs]
        congr 1
        exact congrArg List.sum
          (List.map_congr_left
            fun (q : (String × String) × List (String × String)) _ =>
              sum_unsplittable_inner q.2 (req.get_edge_demand q.1) k)
  | splittable emb mn me =>
      obtain ⟨d2, hd2, hkeys2, hval2⟩ :=
        applyUpdates_spec
          (me.flatMap fun q => q.2.map fun z => (z.1, req.get_edge_demand q.1 * z.2)) d1
          (by
            intro q hq
            obtain ⟨e, he, hq2⟩ := List.mem_flatMap.mp hq
            obtain ⟨z, hz, rfl⟩ := List.mem_map.mp hq2
            rw [htransfer]
            exact List.all_eq_true.mp (List.all_eq_true.mp hke e he) z hz)
      refine ⟨d2, ?_, hkeys2.trans hkeys1, ?_⟩
      · unfold compute_mapping_load
        rw [hd1]
        exact hd2
      · intro k
        rw [hval2 k, hval1 k]
        unfold mappingContribution
        rw [← sum_node_updates req (ReqMapping.splittable emb mn me).mappingNodes k]
        rw [add_assoc]
        congr 1
        rw [sum_filter_flatMap]
        have hrhs : edgeContribution req (ReqMapping.splittable emb mn me) k
            = (me.map fun q =>
                req.get_edge_demand q.1
                  * ((q.2.filter fun z => decide (z.1 = k)).map Prod.snd).sum).sum := rfl
        rw [hrhs]
        congr 1
        exact congrArg List.sum
          (List.map_congr_left
            fun (q : (String × String) × List ((String × String) × ℚ)) _ =>
              sum_splittable_inner q.2 (req.get_edge_demand q.1) k)

/- Concrete data realizing testable property 7 of the spec: edge demand 10,
   splittable routing 3/10 and 7/10 over two substrate edges, and an
   unsplittable routing over the two-edge path. -/
def witnessReq : Request :=
  { id := "r1", profit := 1,
    get_node_demand := fun _ => 0,
    get_type := fun _ => "cpu",
    get_edge_demand := fun _ => 10 }

def witnessLoad : LoadDict :=
  [((("u1", "u2") : LoadKey), 0), ((("u2", "u3") : LoadKey), 0)]

def witnessSplitMapping : ReqMapping :=
  .splittable true [] [(("i", "j"), [(("u1", "u2"), 3/10), (("u2", "u3"), 7/10)])]

def witnessUnsplitMapping : ReqMapping :=
  .unsplittable true [] [(("i", "j"), [("u1", "u2"), ("u2", "u3")])]

/-- Witness for C2: demand 10 split 0.3/0.7 over two substrate edges adds
exactly 3 and 7; an unsplittable mapping over the two-edge path adds 10 to
each edge. -/
theorem compute_mapping_load_spec_witness :
    mappingKeysOk witnessLoad witnessReq witnessSplitMapping = true
    ∧ (∃ load2, compute_mapping_load witnessLoad witnessReq witnessSplitMapping = some load2
        ∧ load2.map Prod.fst = witnessLoad.map Prod.fst
        ∧ ∀ k, dval load2 k
            = dval witnessLoad k + mappingContribution witnessReq witnessSplitMapping k)
    ∧ (compute_mapping_load witnessLoad witnessReq witnessSplitMapping).map
        (fun d => (dval d ("u1", "u2"), dval d ("u2", "u3"))) = some (3, 7)
    ∧ (compute_mapping_load witnessLoad witnessReq witnessUnsplitMapping).map
        (fun d => (dval d ("u1", "u2"), dval d ("u2", "u3"))) = some (10, 10) :=
  ⟨by decide,
   compute_mapping_load_spec witnessLoad witnessReq witnessSplitMapping (by decide),
   by
     simp [compute_mapping_load, compute_mapping_edge_load_splittable,
       witnessLoad, witnessReq, witnessSplitMapping, ReqMapping.mappingNodes,
       applyUpdates, dadd, dset, dlookup, dval]
     norm_num,
   by
     simp [compute_mapping_load, compute_mapping_edge_load_unsplittable,
       witnessLoad, witnessReq, witnessUnsplitMapping, ReqMapping.mappingNodes,
       applyUpdates, dadd, dset, dlookup, dval]⟩

/- ---------------------------------------------------------------- -/
/- OfflineViNEResultCollectionReducer (plot_data.py, lines 73-178)    -/
/- ---------------------------------------------------------------- -/

/- vine.ViNEMappingStatus plus an extra constructor standing for any value
   outside the four known ones (the `else: raise ValueError` branch). -/
inductive ViNEMappingStatus where
  | is_embedded
  | initial_lp_failed
  | node_mapping_failed
  | edge_mapping_failed
  | unknown (code : Nat)
deriving DecidableEq

/- The four counters of _count_mapping_status, named as in the source. -/
structure StatusCounts where
  num_is_embedded : Nat
  num_initial_lp_failed : Nat
  num_node_mapping_failed : Nat
  num_edge_mapping_failed : Nat
deriving DecidableEq

/- _count_mapping_status (lines 159-175): tally the status of every request;
   an unexpected status raises ValueError (none). -/
def count_mapping_status (statuses : List (String × ViNEMappingStatus)) :
    Option StatusCounts :=
  statuses.foldlM
    (fun c p =>
      match p.2 with
      | .is_embedded => some { c with num_is_embedded := c.num_is_embedded + 1 }
      | .initial_lp_failed =>
          some { c with num_initial_lp_failed := c.num_initial_lp_failed + 1 }
      | .node_mapping_failed =>
          some { c with num_node_mapping_failed := c.num_node_mapping_failed + 1 }
      | .edge_mapping_failed =>
          some { c with num_edge_mapping_failed := c.num_edge_mapping_failed + 1 }
      | .unknown _ => none)
    ⟨0, 0, 0, 0⟩

/- result.get_solution(): the integral ViNE solution object, with its scenario
   and the request -> mapping dict (a dict value of None is modelled as
   Option none). -/
structure VineSolutionObject where
  scenario : Scenario
  request_mapping : Request → Option ReqMapping

/- One entry of a vine result list.  The runtime_per_request statistics
   (np.mean / np.std over floats) are outside this rational embedding and are
   not modelled. -/
structure ViNEResult where
  solution : VineSolutionObject
  total_runtime : ℚ
  profit : ℚ
  mapping_status_per_request : List (String × ViNEMappingStatus)

/- ReducedOfflineViNEResultCollection without the two numpy runtime fields. -/
structure ReducedOfflineViNEResultCollection where
  total_runtime : ℚ
  profit : ℚ
  num_is_embedded : Nat
  num_initial_lp_failed : Nat
  num_node_mapping_failed : Nat
  num_edge_mapping_failed : Nat
  embedding_ratio : ℚ
  original_number_requests : Nat
  num_req_with_profit : Nat
  load : LoadDict

/- `if req.profit > 0.001: number_of_req_profit += 1` (the third component);
   the load and embedded count are untouched here. -/
def profitBump (acc : LoadDict × Nat × Nat) (req : Request) : LoadDict × Nat × Nat :=
  if req.profit > 1/1000 then (acc.1, acc.2.1, acc.2.2 + 1) else acc

/- The request loop body of reduce_vine_result_collection (lines 121-128):
   accumulator (load, number_of_embedded_reqs, number_of_req_profit). -/
def vine_request_step (request_mapping : Request → Option ReqMapping)
    (acc : LoadDict × Nat × Nat) (req : Request) :
    Option (LoadDict × Nat × Nat) :=
  match request_mapping req with
  | some m =>
      if m.isEmbedded then
        (compute_mapping_load (profitBump acc req).1 req m).map
          fun d2 => (d2, (profitBump acc req).2.1 + 1, (profitBump acc req).2.2)
      else some (profitBump acc req)
  | none => some (profitBump acc req)

/- The per-result body of reduce_vine_result_collection (lines 115-147):
   scan the requests accumulating load / embedded count / profit count,
   independently tally the mapping statuses, and assert that both embedded
   counts agree (AssertionError modelled as none).  An embedding ratio with
   zero requests would raise ZeroDivisionError in Python; it does not occur in
   the reducer's inputs and rational division by zero is not exercised by the
   theorems below. -/
def reduce_vine_result (scenario : Scenario) (result : ViNEResult) :
    Option ReducedOfflineViNEResultCollection :=
  match result.solution.scenario.requests.foldlM
      (vine_request_step result.solution.request_mapping)
      (initialize_load_dict scenario, 0, 0) with
  | none => none
  | some (load, number_of_embedded_reqs, number_of_req_profit) =>
      match count_mapping_status result.mapping_status_per_request with
      | none => none
      | some counts =>
          if counts.num_is_embedded = number_of_embedded_reqs then
            some { total_runtime := result.total_runtime,
                   profit := result.profit,
                   num_is_embedded := counts.num_is_embedded,
                   num_initial_lp_failed := counts.num_initial_lp_failed,
                   num_node_mapping_failed := counts.num_node_mapping_failed,
                   num_edge_mapping_failed := counts.num_edge_mapping_failed,
                   embedding_ratio :=
                     (number_of_embedded_reqs : ℚ)
                       / (result.solution.scenario.requests.length : ℚ),
                   original_number_requests := result.solution.scenario.requests.length,
                   num_req_with_profit := number_of_req_profit,
                   load := load }
          else none

theorem profitBump_fst (acc : LoadDict × Nat × Nat) (req : Request) :
    (profitBump acc req).1 = acc.1 := by
  unfold profitBump
  split <;> rfl

theorem profitBump_snd_fst (acc : LoadDict × Nat × Nat) (req : Request) :
    (profitBump acc req).2.1 = acc.2.1 := by
  unfold profitBump
  split <;> rfl

theorem vine_fold_count (request_mapping : Request → Option ReqMapping)
    (requests : List Request) :
    ∀ (acc res : LoadDict × Nat × Nat),
      requests.foldlM (vine_request_step request_mapping) acc = some res →
      res.2.1 = acc.2.1
        + (requests.filter fun req =>
            match request_mapping req with
            | some m => m.isEmbedded
            | none => false).length := by
  induction requests with
  | nil =>
      intro acc res h
      cases h
      simp
  | cons req rest ih =>
      intro acc res h
      rw [List.foldlM_cons] at h
      cases hstep : vine_request_step request_mapping acc req with
      | none => rw [hstep] at h; cases h
      | some acc1 =>
          rw [hstep] at h
          have h2 : rest.foldlM (vine_request_step request_mapping) acc1 = some res := h
          have hcount := ih acc1 res h2
          unfold vine_request_step at hstep
          cases hm : request_mapping req with
          | none =>
              rw [hm] at hstep
              cases hstep
              rw [hcount, profitBump_snd_fst, List.filter_cons]
              have : (match request_mapping req with
                  | some m => m.isEmbedded
                  | none => false) = false := by rw [hm]
              rw [this]
              simp
          | some m =>
              rw [hm] at hstep
              have hstep2 : (if m.isEmbedded = true then
                    Option.map
                      (fun d2 =>
                        (d2, (profitBump acc req).2.1 + 1, (profitBump acc req).2.2))
                      (compute_mapping_load (profitBump acc req).1 req m)
                  else some (profitBump acc req)) = some acc1 := hstep
              cases hemb : m.isEmbedded with
              | false =>
                  rw [hemb] at hstep2
                  simp at hstep2
                  subst hstep2
                  rw [hcount, profitBump_snd_fst]
                  simp [List.filter_cons, hm, hemb]
              | true =>
                  rw [hemb] at hstep2
                  simp at hstep2
                  obtain ⟨d2, hcm, hacc⟩ := hstep2
                  subst hacc
                  rw [hcount]
                  simp [profitBump_snd_fst, List.filter_cons, hm, hemb]
                  omega

theorem count_fold_unknown (statuses : List (String × ViNEMappingStatus)) :
    ∀ acc : StatusCounts,
      (∃ p ∈ statuses, ∃ c, p.2 = ViNEMappingStatus.unknown c) →
      statuses.foldlM
        (fun c p =>
          match p.2 with
          | .is_embedded => some { c with num_is_embedded := c.num_is_embedded + 1 }
          | .initial_lp_failed =>
              some { c with num_initial_lp_failed := c.num_initial_lp_failed + 1 }
          | .node_mapping_failed =>
              some { c with num_node_mapping_failed := c.num_node_mapping_failed + 1 }
          | .edge_mapping_failed =>
              some { c with num_edge_mapping_failed := c.num_edge_mapping_failed + 1 }
          | .unknown _ => none)
        acc = none := by
  induction statuses with
  | nil =>
      intro acc h
      obtain ⟨p, hp, _⟩ := h
      cases hp
  | cons q rest ih =>
      intro acc h
      rw [List.foldlM_cons]
      obtain ⟨p, hp, c, hc⟩ := h
      rcases List.mem_cons.mp hp with rfl | hmem
      · simp [hc]
      · cases hq : q.2 <;> simp [hq] <;>
          first
            | rfl
            | exact ih _ ⟨p, hmem, c, hc⟩

/-- C3: whenever the ViNE reducer succeeds on a result, the embedded-request
count obtained from the mapping-status tally equals the count obtained by the
direct scan of the request mappings (the assert holds); a mapping status
outside the four known values makes _count_mapping_status raise (none), and
the whole per-result reduction raise, rather than being silently skipped. -/
theorem count_mapping_status_cross_check :
    (∀ (scenario : Scenario) (result : ViNEResult)
        (red : ReducedOfflineViNEResultCollection),
        reduce_vine_result scenario result = some red →
        red.num_is_embedded
          = (result.solution.scenario.requests.filter fun req =>
              match result.solution.request_mapping req with
              | some m => m.isEmbedded
              | none => false).length)
    ∧ (∀ statuses : List (String × ViNEMappingStatus),
        (∃ p ∈ statuses, ∃ c, p.2 = ViNEMappingStatus.unknown c) →
        count_mapping_status statuses = none)
    ∧ (∀ (scenario : Scenario) (result : ViNEResult),
        (∃ p ∈ result.mapping_status_per_request, ∃ c,
            p.2 = ViNEMappingStatus.unknown c) →
        reduce_vine_result scenario result = none) := by
  have hcount : ∀ statuses : List (String × ViNEMappingStatus),
      (∃ p ∈ statuses, ∃ c, p.2 = ViNEMappingStatus.unknown c) →
      count_mapping_status statuses = none :=
    fun statuses h => count_fold_unknown statuses _ h
  refine ⟨?_, hcount, ?_⟩
  · intro scenario result red hred
    unfold reduce_vine_result at hred
    split at hred
    next hfold => cases hred
    next load ne np hfold =>
      split at hred
      next hcnt => cases hred
      next counts hcnt =>
        split at hred
        next hassert =>
          cases hred
          have hc := vine_fold_count result.solution.request_mapping
            result.solution.scenario.requests _ _ hfold
          simpa [hassert] using hc
        next hassert => cases hred
  · intro scenario result hunk
    unfold reduce_vine_result
    cases hfold : result.solution.scenario.requests.foldlM
        (vine_request_step result.solution.request_mapping)
        (initialize_load_dict scenario, 0, 0) with
    | none => rfl
    | some res =>
        obtain ⟨load, ne, np⟩ := res
        rw [show count_mapping_status result.mapping_status_per_request = none
          from hcount _ hunk]

/- Concrete ViNE data for the C3 witness: 5 requests, 3 embedded, one failed
   at the initial LP, one failed at node mapping. -/
def vineReq (name : String) : Request :=
  { id := name, profit := 0, get_node_demand := fun _ => 0,
    get_type := fun _ => "t", get_edge_demand := fun _ => 0 }

def vineScenario : Scenario :=
  { substrate := { nodes := ["u"], edges := [], supported_types := fun _ => [] },
    requests := [vineReq "r1", vineReq "r2", vineReq "r3", vineReq "r4", vineReq "r5"] }

def embMapping : ReqMapping := .unsplittable true [] []

def failMapping : ReqMapping := .unsplittable false [] []

def vineResult : ViNEResult :=
  { solution :=
      { scenario := vineScenario,
        request_mapping := fun r =>
          if r.id = "r1" ∨ r.id = "r2" ∨ r.id = "r3" then some embMapping
          else if r.id = "r4" then none
          else some failMapping },
    total_runtime := 1, profit := 0,
    mapping_status_per_request :=
      [("r1", .is_embedded), ("r2", .is_embedded), ("r3", .is_embedded),
       ("r4", .initial_lp_failed), ("r5", .node_mapping_failed)] }

def vineReduced : ReducedOfflineViNEResultCollection :=
  { total_runtime := 1, profit := 0, num_is_embedded := 3,
    num_initial_lp_failed := 1, num_node_mapping_failed := 1,
    num_edge_mapping_failed := 0, embedding_ratio := 3/5,
    original_number_requests := 5, num_req_with_profit := 0, load := [] }

/-- Witness for C3: on the concrete 3-of-5 scenario, the reducer succeeds and
both embedded counts equal 3; an injected unknown status makes
_count_mapping_status and the whole reduction raise. -/
theorem count_mapping_status_cross_check_witness :
    reduce_vine_result vineScenario vineResult = some vineReduced
    ∧ vineReduced.num_is_embedded
        = (vineResult.solution.scenario.requests.filter fun req =>
            match vineResult.solution.request_mapping req with
            | some m => m.isEmbedded
            | none => false).length
    ∧ count_mapping_status [("rX", ViNEMappingStatus.unknown 7)] = none
    ∧ reduce_vine_result vineScenario
        { solution := vineResult.solution, total_runtime := 1, profit := 0,
          mapping_status_per_request := [("rX", ViNEMappingStatus.unknown 7)] }
        = none := by
  have hEval : reduce_vine_result vineScenario vineResult = some vineReduced := by
    simp [reduce_vine_result, vine_request_step, profitBump, compute_mapping_load,
      compute_mapping_edge_load_unsplittable, compute_mapping_edge_load_splittable,
      applyUpdates, count_mapping_status, initialize_load_dict, vineScenario,
      vineResult, vineReq, vineReduced, embMapping, failMapping,
      ReqMapping.isEmbedded, ReqMapping.mappingNodes, dlookup, dset, dval]
    norm_num
  refine ⟨hEval, count_mapping_status_cross_check.1 _ _ _ hEval,
    count_mapping_status_cross_check.2.1 _
      ⟨("rX", ViNEMappingStatus.unknown 7), by simp, 7, rfl⟩,
    count_mapping_status_cross_check.2.2 _ _
      ⟨("rX", ViNEMappingStatus.unknown 7), by simp, 7, rfl⟩⟩

/- ----------------------------------------------------------------------- -/
/- RandRoundSepLPOptDynVMPCollectionResultReducer (plot_data, lines 181-279) -/
/- ----------------------------------------------------------------------- -/

/- solutions.IntegralScenarioSolution: the request -> mapping dict of one
   fully stored integral solution. -/
structure IntegralScenarioSolution where
  request_mapping : List (Request × Option ReqMapping)

/- treewidth_model.RandomizedRoundingSolution: one rounding attempt; only the
   best attempt retains a non-null full solution. -/
structure RandomizedRoundingSolution where
  solution : Option IntegralScenarioSolution
  max_node_load : ℚ
  max_edge_load : ℚ
  time_to_round_solution : ℚ
  profit : ℚ

/- treewidth_model.SeparationLPSolution: LP-relaxation metadata. -/
structure SeparationLPSolution where
  time_preprocessing : ℚ
  time_optimization : ℚ
  status : String
  profit : ℚ
  number_of_generated_mappings : Nat

/- treewidth_model.RandRoundSepLPOptDynVMPCollectionResult: per-sub-parameter
   lists of rounding attempts plus the LP information and the scenario. -/
structure RandRoundSepLPOptDynVMPCollectionResult where
  scenario : Scenario
  lp_computation_information : SeparationLPSolution
  solutions : List (String × List RandomizedRoundingSolution)

/- The per-setting mutable state of reduce_single_solution's inner loop. -/
structure SettingAcc where
  ratio : ℚ
  load : LoadDict
  max_node_loads : List ℚ
  max_edge_loads : List ℚ
  rounding_runtimes : List ℚ
  profits : List ℚ

structure ReducedRandRoundSepLPOptDynVMPCollectionResult where
  lp_time_preprocess : ℚ
  lp_time_optimization : ℚ
  lp_status : String
  lp_profit : ℚ
  lp_generated_columns : Nat
  best_solution_load : List (String × LoadDict)
  max_node_loads : List (String × List ℚ)
  max_edge_loads : List (String × List ℚ)
  rounding_runtimes : List (String × List ℚ)
  profits : List (String × List ℚ)
  best_solution_embedding_ratio : List (String × ℚ)

/- The request_mapping loop of reduce_single_solution (lines 246-251):
   accumulate loads of embedded mappings and count them. -/
def integral_step (a : LoadDict × Nat) (p : Request × Option ReqMapping) :
    Option (LoadDict × Nat) :=
  match p.2 with
  | some m =>
      if m.isEmbedded then
        (compute_mapping_load a.1 p.1 m).map fun d2 => (d2, a.2 + 1)
      else some a
  | none => some a

def apply_integral_solution (load : LoadDict) (isol : IntegralScenarioSolution) :
    Option (LoadDict × Nat) :=
  isol.request_mapping.foldlM integral_step (load, 0)

/- The embedded (request, mapping) pairs of a stored integral solution, and
   their count and total per-key load contribution (specification side). -/
def embeddedPairs (l : List (Request × Option ReqMapping)) :
    List (Request × ReqMapping) :=
  l.filterMap fun p =>
    match p.2 with
    | some m => if m.isEmbedded then some (p.1, m) else none
    | none => none

def isolContribution (isol : IntegralScenarioSolution) (k : LoadKey) : ℚ :=
  ((embeddedPairs isol.request_mapping).map
    fun pm => mappingContribution pm.1 pm.2 k).sum

theorem containsKey_congr {α β : Type} [DecidableEq α] (d1 d2 : List (α × β))
    (h : d1.map Prod.fst = d2.map Prod.fst) (k : α) :
    containsKey d1 k = containsKey d2 k := by
  cases h1 : containsKey d1 k with
  | true =>
      rw [← mem_map_fst_iff_containsKey] at h1
      rw [h] at h1
      rw [mem_map_fst_iff_containsKey] at h1
      exact h1.symm
  | false =>
      cases h2 : containsKey d2 k with
      | false => rfl
      | true =>
          rw [← mem_map_fst_iff_containsKey] at h2
          rw [← h] at h2
          rw [mem_map_fst_iff_containsKey] at h2
          rw [h1] at h2
          cases h2

theorem mappingKeysOk_congr (d1 d2 : LoadDict) (req : Request) (m : ReqMapping)
    (h : d1.map Prod.fst = d2.map Prod.fst) :
    mappingKeysOk d1 req m = mappingKeysOk d2 req m := by
  have hc : ∀ k, containsKey d1 k = containsKey d2 k := containsKey_congr d1 d2 h
  unfold mappingKeysOk
  cases m <;> simp [hc]

theorem integral_fold_spec (l : List (Request × Option ReqMapping)) :
    ∀ a : LoadDict × Nat,
      (∀ p ∈ l, ∀ m : ReqMapping, p.2 = some m → m.isEmbedded = true →
          mappingKeysOk a.1 p.1 m = true) →
      ∃ z : LoadDict × Nat, l.foldlM integral_step a = some z
        ∧ z.1.map Prod.fst = a.1.map Prod.fst
        ∧ z.2 = a.2 + (embeddedPairs l).length
        ∧ ∀ k, dval z.1 k = dval a.1 k
            + ((embeddedPairs l).map fun pm => mappingContribution pm.1 pm.2 k).sum := by
  induction l with
  | nil =>
      intro a _
      exact ⟨a, rfl, rfl, by simp [embeddedPairs], by simp [embeddedPairs]⟩
  | cons p rest ih =>
      intro a hkeys
      have hrest0 : ∀ q ∈ rest, ∀ m : ReqMapping, q.2 = some m →
          m.isEmbedded = true → mappingKeysOk a.1 q.1 m = true :=
        fun q hq => hkeys q (List.mem_cons_of_mem _ hq)
      cases hp2 : p.2 with
      | none =>
          obtain ⟨z, hz, hkeysz, hcnt, hval⟩ := ih a hrest0
          refine ⟨z, ?_, hkeysz, ?_, ?_⟩
          · rw [List.foldlM_cons]
            have hstep : integral_step a p = some a := by
              unfold integral_step
              rw [hp2]
            rw [hstep]
            exact hz
          · rw [hcnt]
            simp [embeddedPairs, List.filterMap_cons, hp2]
          · intro k
            rw [hval k]
            simp [embeddedPairs, List.filterMap_cons, hp2]
      | some m =>
          cases hemb : m.isEmbedded with
          | false =>
              obtain ⟨z, hz, hkeysz, hcnt, hval⟩ := ih a hrest0
              refine ⟨z, ?_, hkeysz, ?_, ?_⟩
              · rw [List.foldlM_cons]
                have hstep : integral_step a p = some a := by
                  unfold integral_step
                  rw [hp2]
                  simp [hemb]
                rw [hstep]
                exact hz
              · rw [hcnt]
                simp [embeddedPairs, List.filterMap_cons, hp2, hemb]
              · intro k
                rw [hval k]
                simp [embeddedPairs, List.filterMap_cons, hp2, hemb]
          | true =>
              have hok := hkeys p (List.mem_cons_self _ _) m hp2 hemb
              obtain ⟨d2, hd2, hkeys2, hval2⟩ :=
                compute_mapping_load_spec a.1 p.1 m hok
              have hrest : ∀ q ∈ rest, ∀ m1 : ReqMapping, q.2 = some m1 →
                  m1.isEmbedded = true → mappingKeysOk (d2, a.2 + 1).1 q.1 m1 = true := by
                intro q hq m1 hm1 hemb1
                rw [show ((d2, a.2 + 1) : LoadDict × Nat).1 = d2 from rfl]
                rw [mappingKeysOk_congr d2 a.1 q.1 m1 hkeys2]
                exact hrest0 q hq m1 hm1 hemb1
              obtain ⟨z, hz, hkeysz, hcnt, hval⟩ := ih (d2, a.2 + 1) hrest
              refine ⟨z, ?_, ?_, ?_, ?_⟩
              · rw [List.foldlM_cons]
                have hstep : integral_step a p = some (d2, a.2 + 1) := by
                  unfold integral_step
                  rw [hp2]
                  simp [hemb, hd2]
                rw [hstep]
                exact hz
              · rw [hkeysz]
                exact hkeys2
              · rw [hcnt]
                simp only []
                rw [show embeddedPairs (p :: rest) = (p.1, m) :: embeddedPairs rest by
                  simp [embeddedPairs, List.filterMap_cons, hp2, hemb]]
                simp only [List.length_cons]
                omega
              · intro k
                rw [hval k]
                have hv2 : dval ((d2, a.2 + 1) : LoadDict × Nat).1 k
                    = dval a.1 k + mappingContribution p.1 m k := hval2 k
                rw [hv2]
                rw [show embeddedPairs (p :: rest) = (p.1, m) :: embeddedPairs rest by
                  simp [embeddedPairs, List.filterMap_cons, hp2, hemb]]
                simp only [List.map_cons, List.sum_cons]
                ring

theorem apply_integral_solution_spec (load : LoadDict)
    (isol : IntegralScenarioSolution)
    (hkeys : ∀ p ∈ isol.request_mapping, ∀ m : ReqMapping, p.2 = some m →
        m.isEmbedded = true → mappingKeysOk load p.1 m = true) :
    ∃ z : LoadDict × Nat, apply_integral_solution load isol = some z
      ∧ z.1.map Prod.fst = load.map Prod.fst
      ∧ z.2 = (embeddedPairs isol.request_mapping).length
      ∧ ∀ k, dval z.1 k = dval load k + isolContribution isol k := by
  obtain ⟨z, hz, h1, h2, h3⟩ := integral_fold_spec isol.request_mapping (load, 0) hkeys
  exact ⟨z, hz, h1, by simpa using h2, fun k => by simpa [isolContribution] using h3 k⟩

theorem getLast?_cons {α : Type} (a : α) (l : List α) :
    (a :: l).getLast? = some (l.getLast?.getD a) := by
  induction l generalizing a with
  | nil => simp
  | cons b rest ih => simp [List.getLast?_cons_cons, ih]

/- The unconditional appends at the end of each loop iteration (lines
   253-257), parametrized by the ratio and load state after the iteration. -/
def appendStats (acc : SettingAcc) (rr : RandomizedRoundingSolution) (r : ℚ)
    (ld : LoadDict) : SettingAcc :=
  { ratio := r, load := ld,
    max_node_loads := acc.max_node_loads ++ [rr.max_node_load],
    max_edge_loads := acc.max_edge_loads ++ [rr.max_edge_load],
    rounding_runtimes := acc.rounding_runtimes ++ [rr.time_to_round_solution],
    profits := acc.profits ++ [rr.profit] }

/- One iteration of `for rounding_result in rounding_result_list` (lines
   245-257): a non-null solution accumulates its embedded mappings into the
   shared load dict and overwrites the embedding ratio; the four statistics
   lists are appended to in every iteration. -/
def process_rounding_result (nreq : Nat) (acc : SettingAcc)
    (rr : RandomizedRoundingSolution) : Option SettingAcc :=
  match rr.solution with
  | none => some (appendStats acc rr acc.ratio acc.load)
  | some isol =>
      (apply_integral_solution acc.load isol).map fun z =>
        appendStats acc rr ((z.2 : ℚ) / (nreq : ℚ)) z.1

/- The per-setting part of reduce_single_solution (lines 237-260), starting
   from ratio -1 and the freshly initialized load dict. -/
def process_setting (scenario : Scenario) (nreq : Nat)
    (rrs : List RandomizedRoundingSolution) : Option SettingAcc :=
  rrs.foldlM (process_rounding_result nreq)
    { ratio := -1, load := initialize_load_dict scenario,
      max_node_loads := [], max_edge_loads := [], rounding_runtimes := [],
      profits := [] }

/- reduce_single_solution (lines 230-279) for a non-None collection result:
   process every sub-parameter's attempt list and assemble the reduced record
   (the per-sub-parameter dicts are association lists in iteration order). -/
def reduce_single_solution (solution : RandRoundSepLPOptDynVMPCollectionResult) :
    Option ReducedRandRoundSepLPOptDynVMPCollectionResult :=
  match solution.solutions.mapM
      (fun p =>
        (process_setting solution.scenario solution.scenario.requests.length p.2).map
          fun a => (p.1, a)) with
  | none => none
  | some settings =>
      some { lp_time_preprocess := solution.lp_computation_information.time_preprocessing,
             lp_time_optimization := solution.lp_computation_information.time_optimization,
             lp_status := solution.lp_computation_information.status,
             lp_profit := solution.lp_computation_information.profit,
             lp_generated_columns :=
               solution.lp_computation_information.number_of_generated_mappings,
             best_solution_load := settings.map fun q => (q.1, q.2.load),
             max_node_loads := settings.map fun q => (q.1, q.2.max_node_loads),
             max_edge_loads := settings.map fun q => (q.1, q.2.max_edge_loads),
             rounding_runtimes := settings.map fun q => (q.1, q.2.rounding_runtimes),
             profits := settings.map fun q => (q.1, q.2.profits),
             best_solution_embedding_ratio := settings.map fun q => (q.1, q.2.ratio) }

theorem setting_fold_all_null (nreq : Nat) (rrs : List RandomizedRoundingSolution)
    (hnull : ∀ rr ∈ rrs, rr.solution = none) :
    ∀ acc : SettingAcc,
      ∃ acc2, rrs.foldlM (process_rounding_result nreq) acc = some acc2
        ∧ acc2.ratio = acc.ratio
        ∧ acc2.load = acc.load
        ∧ acc2.max_node_loads = acc.max_node_loads ++ (rrs.map fun rr => rr.max_node_load)
        ∧ acc2.max_edge_loads = acc.max_edge_loads ++ (rrs.map fun rr => rr.max_edge_load)
        ∧ acc2.rounding_runtimes
            = acc.rounding_runtimes ++ (rrs.map fun rr => rr.time_to_round_solution)
        ∧ acc2.profits = acc.profits ++ (rrs.map fun rr => rr.profit) := by
  induction rrs with
  | nil =>
      intro acc
      exact ⟨acc, rfl, rfl, rfl, by simp, by simp, by simp, by simp⟩
  | cons rr rest ih =>
      intro acc
      have hrest : ∀ rr1 ∈ rest, rr1.solution = none :=
        fun rr1 h1 => hnull rr1 (List.mem_cons_of_mem _ h1)
      obtain ⟨acc2, hfold, h1, h2, h3, h4, h5, h6⟩ :=
        ih hrest (appendStats acc rr acc.ratio acc.load)
      have hstep : process_rounding_result nreq acc rr
          = some (appendStats acc rr acc.ratio acc.load) := by
        unfold process_rounding_result
        rw [hnull rr (List.mem_cons_self _ _)]
      refine ⟨acc2, ?_, h1, h2, ?_, ?_, ?_, ?_⟩
      · rw [List.foldlM_cons, hstep]
        exact hfold
      · rw [h3]
        simp [appendStats]
      · rw [h4]
        simp [appendStats]
      · rw [h5]
        simp [appendStats]
      · rw [h6]
        simp [appendStats]

theorem process_setting_all_null (scenario : Scenario) (nreq : Nat)
    (rrs : List RandomizedRoundingSolution)
    (hnull : ∀ rr ∈ rrs, rr.solution = none) :
    ∃ acc2, process_setting scenario nreq rrs = some acc2
      ∧ acc2.ratio = -1
      ∧ acc2.load = initialize_load_dict scenario
      ∧ acc2.max_node_loads = (rrs.map fun rr => rr.max_node_load)
      ∧ acc2.max_edge_loads = (rrs.map fun rr => rr.max_edge_load)
      ∧ acc2.rounding_runtimes = (rrs.map fun rr => rr.time_to_round_solution)
      ∧ acc2.profits = (rrs.map fun rr => rr.profit) := by
  obtain ⟨acc2, hfold, h1, h2, h3, h4, h5, h6⟩ :=
    setting_fold_all_null nreq rrs hnull
      { ratio := -1, load := initialize_load_dict scenario,
        max_node_loads := [], max_edge_loads := [], rounding_runtimes := [],
        profits := [] }
  exact ⟨acc2, hfold, h1, h2, by simpa using h3, by simpa using h4,
    by simpa using h5, by simpa using h6⟩

theorem setting_fold_spec (scenario : Scenario) (nreq : Nat)
    (rrs : List RandomizedRoundingSolution)
    (hkeys : ∀ rr ∈ rrs, ∀ isol : IntegralScenarioSolution,
        rr.solution = some isol →
        ∀ p ∈ isol.request_mapping, ∀ m : ReqMapping, p.2 = some m →
          m.isEmbedded = true →
          mappingKeysOk (initialize_load_dict scenario) p.1 m = true) :
    ∀ acc : SettingAcc,
      acc.load.map Prod.fst = (initialize_load_dict scenario).map Prod.fst →
      ∃ acc2, rrs.foldlM (process_rounding_result nreq) acc = some acc2
        ∧ acc2.load.map Prod.fst = (initialize_load_dict scenario).map Prod.fst
        ∧ acc2.ratio
            = (match (rrs.filterMap fun rr => rr.solution).getLast? with
               | none => acc.ratio
               | some isol =>
                   ((embeddedPairs isol.request_mapping).length : ℚ) / (nreq : ℚ))
        ∧ ∀ k, dval acc2.load k
            = dval acc.load k
              + ((rrs.filterMap fun rr => rr.solution).map
                  fun isol => isolContribution isol k).sum := by
  induction rrs with
  | nil =>
      intro acc hacc
      exact ⟨acc, rfl, hacc, by simp, by simp⟩
  | cons rr rest ih =>
      intro acc hacc
      have hrest : ∀ rr1 ∈ rest, ∀ isol : IntegralScenarioSolution,
          rr1.solution = some isol →
          ∀ p ∈ isol.request_mapping, ∀ m : ReqMapping, p.2 = some m →
            m.isEmbedded = true →
            mappingKeysOk (initialize_load_dict scenario) p.1 m = true :=
        fun rr1 h1 => hkeys rr1 (List.mem_cons_of_mem _ h1)
      cases hsol : rr.solution with
      | none =>
          obtain ⟨acc2, hfold, hkeys2, hratio, hval⟩ :=
            ih hrest (appendStats acc rr acc.ratio acc.load) hacc
          have hstep : process_rounding_result nreq acc rr
              = some (appendStats acc rr acc.ratio acc.load) := by
            unfold process_rounding_result
            rw [hsol]
          refine ⟨acc2, ?_, hkeys2, ?_, ?_⟩
          · rw [List.foldlM_cons, hstep]
            exact hfold
          · rw [hratio]
            simp [List.filterMap_cons, hsol, appendStats]
          · intro k
            rw [hval k]
            simp [List.filterMap_cons, hsol, appendStats]
      | some isol =>
          have hkisol : ∀ p ∈ isol.request_mapping, ∀ m : ReqMapping, p.2 = some m →
              m.isEmbedded = true → mappingKeysOk acc.load p.1 m = true := by
            intro p hp m hm hemb
            rw [mappingKeysOk_congr acc.load (initialize_load_dict scenario) p.1 m hacc]
            exact hkeys rr (List.mem_cons_self _ _) isol hsol p hp m hm hemb
          obtain ⟨z, hz, hzkeys, hzcnt, hzval⟩ :=
            apply_integral_solution_spec acc.load isol hkisol
          obtain ⟨acc2, hfold, hkeys2, hratio, hval⟩ :=
            ih hrest (appendStats acc rr ((z.2 : ℚ) / (nreq : ℚ)) z.1)
              (by
                rw [show (appendStats acc rr ((z.2 : ℚ) / (nreq : ℚ)) z.1).load = z.1
                  from rfl, hzkeys]
                exact hacc)
          have hstep : process_rounding_result nreq acc rr
              = some (appendStats acc rr ((z.2 : ℚ) / (nreq : ℚ)) z.1) := by
            unfold process_rounding_result
            rw [hsol]
            show Option.map (fun z => appendStats acc rr ((z.2 : ℚ) / (nreq : ℚ)) z.1)
              (apply_integral_solution acc.load isol) = _
            rw [hz]
            rfl
          refine ⟨acc2, ?_, hkeys2, ?_, ?_⟩
          · rw [List.foldlM_cons, hstep]
            exact hfold
          · rw [hratio]
            rw [show (rr :: rest).filterMap (fun rr => rr.solution)
                = isol :: rest.filterMap (fun rr => rr.solution) by
              simp [List.filterMap_cons, hsol]]
            rw [getLast?_cons]
            cases hlast : (rest.filterMap fun rr => rr.solution).getLast? with
            | none => simp [hlast, hzcnt, appendStats]
            | some isol2 => simp [hlast]
          · intro k
            rw [hval k]
            rw [show dval (appendStats acc rr ((z.2 : ℚ) / (nreq : ℚ)) z.1).load k
                = dval z.1 k from rfl]
            rw [hzval k]
            rw [show (rr :: rest).filterMap (fun rr => rr.solution)
                = isol :: rest.filterMap (fun rr => rr.solution) by
              simp [List.filterMap_cons, hsol]]
            simp only [List.map_cons, List.sum_cons]
            ring

theorem process_setting_spec (scenario : Scenario) (nreq : Nat)
    (rrs : List RandomizedRoundingSolution)
    (hkeys : ∀ rr ∈ rrs, ∀ isol : IntegralScenarioSolution,
        rr.solution = some isol →
        ∀ p ∈ isol.request_mapping, ∀ m : ReqMapping, p.2 = some m →
          m.isEmbedded = true →
          mappingKeysOk (initialize_load_dict scenario) p.1 m = true) :
    ∃ acc2, process_setting scenario nreq rrs = some acc2
      ∧ acc2.ratio
          = (match (rrs.filterMap fun rr => rr.solution).getLast? with
             | none => -1
             | some isol =>
                 ((embeddedPairs isol.request_mapping).length : ℚ) / (nreq : ℚ))
      ∧ ∀ k, dval acc2.load k
          = dval (initialize_load_dict scenario) k
            + ((rrs.filterMap fun rr => rr.solution).map
                fun isol => isolContribution isol k).sum := by
  obtain ⟨acc2, hfold, _, hratio, hval⟩ :=
    setting_fold_spec scenario nreq rrs hkeys
      { ratio := -1, load := initialize_load_dict scenario,
        max_node_loads := [], max_edge_loads := [], rounding_runtimes := [],
        profits := [] } rfl
  exact ⟨acc2, hfold, hratio, hval⟩
theorem mapM_settings_spec (sc : Scenario) (nreq : Nat) :
    ∀ sols : List (String × List RandomizedRoundingSolution),
      (∀ p ∈ sols, ∃ a, process_setting sc nreq p.2 = some a) →
      ∃ settings,
        sols.mapM (fun p => (process_setting sc nreq p.2).map fun a => (p.1, a))
          = some settings
        ∧ settings.map Prod.fst = sols.map Prod.fst
        ∧ ∀ (asp : String) (rrs : List RandomizedRoundingSolution) (acc : SettingAcc),
            (asp, rrs) ∈ sols → (sols.map Prod.fst).Nodup →
            process_setting sc nreq rrs = some acc →
            ∀ (γ : Type) (f : SettingAcc → γ),
              dlookup (settings.map fun q => (q.1, f q.2)) asp = some (f acc) := by
  intro sols
  induction sols with
  | nil =>
      intro _
      exact ⟨[], rfl, rfl,
        fun asp rrs acc hmem _ _ _ _ => absurd hmem (List.not_mem_nil _)⟩
  | cons p rest ih =>
      intro h
      obtain ⟨p1, p2⟩ := p
      obtain ⟨a, ha⟩ := h (p1, p2) (List.mem_cons_self _ _)
      obtain ⟨settings, hmapM, hfst, hlook⟩ :=
        ih (fun q hq => h q (List.mem_cons_of_mem _ hq))
      refine ⟨(p1, a) :: settings, ?_, ?_, ?_⟩
      · rw [List.mapM_cons]
        rw [show process_setting sc nreq (p1, p2).2 = some a from ha]
        rw [hmapM]
        rfl
      · simp [hfst]
      · intro asp rrs acc hmem hnodup hacc γ f
        rcases List.mem_cons.mp hmem with heq | hmem2
        · injection heq with h1 h2
          subst h1
          subst h2
          have haa : a = acc := Option.some.inj (ha.symm.trans hacc)
          subst haa
          simp [dlookup]
        · have hnodup2 : (∀ x : List RandomizedRoundingSolution, (p1, x) ∉ rest)
              ∧ (rest.map Prod.fst).Nodup := by simpa using hnodup
          have hne : p1 ≠ asp := by
            intro hcontra
            refine hnodup2.1 rrs ?_
            rw [hcontra]
            exact hmem2
          simp only [List.map_cons, dlookup, if_neg hne]
          exact hlook asp rrs acc hmem2 hnodup2.2 hacc γ f

/-- C4 (amended): in reduce_single_solution, when a setting's attempt list
holds several attempts with a non-null full solution, every non-null solution
contributes: each one's embedded-mapping loads accumulate into the same
per-setting LoadMap (the returned load at a key is the initialized value plus
the sum of the contributions of all non-null solutions), and the embedding
ratio is overwritten by each non-null solution, so the last non-null
solution's ratio is the one retained. -/
theorem reduce_single_solution_accumulates
    (sol : RandRoundSepLPOptDynVMPCollectionResult) (asp : String)
    (rrs : List RandomizedRoundingSolution)
    (hmem : (asp, rrs) ∈ sol.solutions)
    (hnodup : (sol.solutions.map Prod.fst).Nodup)
    (hkeysAll : ∀ p ∈ sol.solutions, ∀ rr ∈ p.2,
        ∀ isol : IntegralScenarioSolution, rr.solution = some isol →
        ∀ q ∈ isol.request_mapping, ∀ m : ReqMapping, q.2 = some m →
          m.isEmbedded = true →
          mappingKeysOk (initialize_load_dict sol.scenario) q.1 m = true) :
    ∃ red acc, reduce_single_solution sol = some red
      ∧ process_setting sol.scenario sol.scenario.requests.length rrs = some acc
      ∧ dlookup red.best_solution_embedding_ratio asp = some acc.ratio
      ∧ dlookup red.best_solution_load asp = some acc.load
      ∧ acc.ratio
          = (match (rrs.filterMap fun rr => rr.solution).getLast? with
             | none => -1
             | some isol =>
                 ((embeddedPairs isol.request_mapping).length : ℚ)
                   / (sol.scenario.requests.length : ℚ))
      ∧ ∀ k, dval acc.load k
          = dval (initialize_load_dict sol.scenario) k
            + ((rrs.filterMap fun rr => rr.solution).map
                fun isol => isolContribution isol k).sum := by
  have hall : ∀ p ∈ sol.solutions,
      ∃ a, process_setting sol.scenario sol.scenario.requests.length p.2 = some a := by
    intro p hp
    obtain ⟨a, ha, _⟩ :=
      process_setting_spec sol.scenario sol.scenario.requests.length p.2
        (hkeysAll p hp)
    exact ⟨a, ha⟩
  obtain ⟨settings, hmapM, _, hlook⟩ :=
    mapM_settings_spec sol.scenario sol.scenario.requests.length sol.solutions hall
  obtain ⟨acc, hacc, hratio, hval⟩ :=
    process_setting_spec sol.scenario sol.scenario.requests.length rrs
      (hkeysAll (asp, rrs) hmem)
  have hred : ∃ red, reduce_single_solution sol = some red
      ∧ red.best_solution_embedding_ratio = (settings.map fun q => (q.1, q.2.ratio))
      ∧ red.best_solution_load = (settings.map fun q => (q.1, q.2.load)) := by
    unfold reduce_single_solution
    rw [hmapM]
    exact ⟨_, rfl, rfl, rfl⟩
  obtain ⟨red, hr1, hr2, hr3⟩ := hred
  refine ⟨red, acc, hr1, hacc, ?_, ?_, hratio, hval⟩
  · rw [hr2]
    exact hlook asp rrs acc hmem hnodup hacc ℚ (fun a => a.ratio)
  · rw [hr3]
    exact hlook asp rrs acc hmem hnodup hacc LoadDict (fun a => a.load)

/-- C5 (amended): for a setting whose rounding attempts all have a null
solution, the setting's processing does not raise, and the reduced record
carries the embedding-ratio sentinel -1 and the zero-initialized load map
(every eligible resource key present at 0.0 — not an empty map) for that
setting. -/
theorem reduce_single_solution_null_setting
    (sol : RandRoundSepLPOptDynVMPCollectionResult) (asp : String)
    (rrs : List RandomizedRoundingSolution)
    (hmem : (asp, rrs) ∈ sol.solutions)
    (hnull : ∀ rr ∈ rrs, rr.solution = none)
    (hnodup : (sol.solutions.map Prod.fst).Nodup)
    (hall : ∀ p ∈ sol.solutions,
        ∃ a, process_setting sol.scenario sol.scenario.requests.length p.2 = some a) :
    ∃ red, reduce_single_solution sol = some red
      ∧ dlookup red.best_solution_embedding_ratio asp = some (-1)
      ∧ dlookup red.best_solution_load asp
          = some (initialize_load_dict sol.scenario) := by
  obtain ⟨settings, hmapM, _, hlook⟩ :=
    mapM_settings_spec sol.scenario sol.scenario.requests.length sol.solutions hall
  obtain ⟨acc, hacc, h1, h2, _⟩ :=
    process_setting_all_null sol.scenario sol.scenario.requests.length rrs hnull
  have hred : ∃ red, reduce_single_solution sol = some red
      ∧ red.best_solution_embedding_ratio = (settings.map fun q => (q.1, q.2.ratio))
      ∧ red.best_solution_load = (settings.map fun q => (q.1, q.2.load)) := by
    unfold reduce_single_solution
    rw [hmapM]
    exact ⟨_, rfl, rfl, rfl⟩
  obtain ⟨red, hr1, hr2, hr3⟩ := hred
  refine ⟨red, hr1, ?_, ?_⟩
  · rw [hr2, hlook asp rrs acc hmem hnodup hacc ℚ (fun a => a.ratio), h1]
  · rw [hr3, hlook asp rrs acc hmem hnodup hacc LoadDict (fun a => a.load), h2]

/- Concrete data for the C4 counterexample and the C4/C5 witnesses. -/
def c4Req : Request :=
  { id := "q", profit := 0, get_node_demand := fun _ => 0,
    get_type := fun _ => "t", get_edge_demand := fun _ => 1 }

def c4Scenario : Scenario :=
  { substrate :=
      { nodes := ["u1", "u2"],
        edges := [("u1", "u2")],
        supported_types := fun _ => [] },
    requests := [c4Req] }

def c4EmbMapping : ReqMapping :=
  .unsplittable true [] [(("i", "j"), [("u1", "u2")])]

def c4FailMapping : ReqMapping := .unsplittable false [] []

def c4IsolEmb : IntegralScenarioSolution := ⟨[(c4Req, some c4EmbMapping)]⟩

def c4IsolFail : IntegralScenarioSolution := ⟨[(c4Req, some c4FailMapping)]⟩

def c4AttemptEmb : RandomizedRoundingSolution := ⟨some c4IsolEmb, 0, 0, 0, 0⟩

def c4AttemptFail : RandomizedRoundingSolution := ⟨some c4IsolFail, 0, 0, 0, 0⟩

def c4LP : SeparationLPSolution := ⟨0, 0, "optimal", 0, 0⟩

/- Setting "p": an embedded best solution followed by a second non-null
   solution embedding nothing; setting "q": two identical non-null embedded
   solutions. -/
def c4Sol : RandRoundSepLPOptDynVMPCollectionResult :=
  { scenario := c4Scenario, lp_computation_information := c4LP,
    solutions := [("p", [c4AttemptEmb, c4AttemptFail]),
                  ("q", [c4AttemptEmb, c4AttemptEmb])] }

/- The same collection truncated to the first attempt of each setting. -/
def c4SolFirst : RandRoundSepLPOptDynVMPCollectionResult :=
  { scenario := c4Scenario, lp_computation_information := c4LP,
    solutions := [("p", [c4AttemptEmb]), ("q", [c4AttemptEmb])] }

/-- C4 counterexample: the claim that only the first non-null solution is
authoritative fails on the code.  With a second non-null solution embedding
nothing, the retained embedding ratio is 0, not the first solution's 1; with a
second embedded non-null solution, the retained load at the substrate edge is
2, not the first solution's 1. -/
theorem reduce_single_solution_first_nonnull_counterexample :
    (reduce_single_solution c4Sol).map
        (fun r => dlookup r.best_solution_embedding_ratio "p") = some (some 0)
    ∧ (reduce_single_solution c4SolFirst).map
        (fun r => dlookup r.best_solution_embedding_ratio "p") = some (some 1)
    ∧ (reduce_single_solution c4Sol).map
        (fun r => dlookup r.best_solution_load "q")
        = some (some [((("u1", "u2") : LoadKey), 2)])
    ∧ (reduce_single_solution c4SolFirst).map
        (fun r => dlookup r.best_solution_load "q")
        = some (some [((("u1", "u2") : LoadKey), 1)])
    ∧ (0 : ℚ) ≠ 1 ∧ (2 : ℚ) ≠ 1 := by
  refine ⟨?_, ?_, ?_, ?_, by norm_num, by norm_num⟩ <;>
    simp [reduce_single_solution, process_setting, process_rounding_result,
      appendStats, apply_integral_solution, integral_step, compute_mapping_load,
      compute_mapping_edge_load_unsplittable, applyUpdates, dadd, dset, dlookup,
      dval, initialize_load_dict, ReqMapping.isEmbedded, ReqMapping.mappingNodes,
      List.mapM.loop, c4Sol, c4SolFirst, c4Scenario, c4Req, c4EmbMapping,
      c4FailMapping, c4IsolEmb, c4IsolFail, c4AttemptEmb, c4AttemptFail, c4LP] <;>
    norm_num

/-- Witness for C4's amended theorem at the concrete collection, setting "q"
(two non-null embedded solutions). -/
theorem reduce_single_solution_accumulates_witness :
    (("q", [c4AttemptEmb, c4AttemptEmb]) ∈ c4Sol.solutions
      ∧ (c4Sol.solutions.map Prod.fst).Nodup)
    ∧ ∃ red acc, reduce_single_solution c4Sol = some red
        ∧ process_setting c4Sol.scenario c4Sol.scenario.requests.length
            [c4AttemptEmb, c4AttemptEmb] = some acc
        ∧ dlookup red.best_solution_embedding_ratio "q" = some acc.ratio
        ∧ dlookup red.best_solution_load "q" = some acc.load
        ∧ acc.ratio
            = (match ([c4AttemptEmb, c4AttemptEmb].filterMap
                  fun rr => rr.solution).getLast? with
               | none => -1
               | some isol =>
                   ((embeddedPairs isol.request_mapping).length : ℚ)
                     / (c4Sol.scenario.requests.length : ℚ))
        ∧ ∀ k, dval acc.load k
            = dval (initialize_load_dict c4Sol.scenario) k
              + (([c4AttemptEmb, c4AttemptEmb].filterMap fun rr => rr.solution).map
                  fun isol => isolContribution isol k).sum := by
  have hkeysAll : ∀ p ∈ c4Sol.solutions, ∀ rr ∈ p.2,
      ∀ isol : IntegralScenarioSolution, rr.solution = some isol →
      ∀ q ∈ isol.request_mapping, ∀ m : ReqMapping, q.2 = some m →
        m.isEmbedded = true →
        mappingKeysOk (initialize_load_dict c4Sol.scenario) q.1 m = true := by
    intro p hp rr hrr isol hisol q hq m hm hemb
    revert hemb
    simp [c4Sol] at hp
    rcases hp with rfl | rfl <;> simp at hrr
    · rcases hrr with rfl | rfl
      · simp [c4AttemptEmb] at hisol
        subst hisol
        simp [c4IsolEmb] at hq
        subst hq
        simp at hm
        subst hm
        decide
      · simp [c4AttemptFail] at hisol
        subst hisol
        simp [c4IsolFail] at hq
        subst hq
        simp at hm
        subst hm
        decide
    · subst hrr
      simp [c4AttemptEmb] at hisol
      subst hisol
      simp [c4IsolEmb] at hq
      subst hq
      simp at hm
      subst hm
      decide
  exact ⟨⟨by simp [c4Sol], by simp [c4Sol]⟩,
    reduce_single_solution_accumulates c4Sol "q" [c4AttemptEmb, c4AttemptEmb]
      (by simp [c4Sol]) (by simp [c4Sol]) hkeysAll⟩

/- Concrete data for C5: one setting whose single rounding attempt has a null
   solution; the substrate has one edge. -/
def nullAttempt : RandomizedRoundingSolution := ⟨none, 1, 2, 3, 4⟩

def nullScenario : Scenario :=
  { substrate :=
      { nodes := ["u1", "u2"],
        edges := [("u1", "u2")],
        supported_types := fun _ => [] },
    requests := [] }

def nullSol : RandRoundSepLPOptDynVMPCollectionResult :=
  { scenario := nullScenario, lp_computation_information := c4LP,
    solutions := [("p", [nullAttempt])] }

/-- C5 counterexample: on an all-null setting the returned load map is the
zero-initialized dict, which is not empty — it contains the substrate edge
key at 0.0. -/
theorem reduce_single_solution_null_counterexample :
    (reduce_single_solution nullSol).map
        (fun r => dlookup r.best_solution_load "p")
      = some (some [((("u1", "u2") : LoadKey), 0)])
    ∧ (reduce_single_solution nullSol).map
        (fun r => dlookup r.best_solution_load "p")
      ≠ some (some ([] : LoadDict)) := by
  have hEval : (reduce_single_solution nullSol).map
      (fun r => dlookup r.best_solution_load "p")
      = some (some [((("u1", "u2") : LoadKey), 0)]) := by
    simp [reduce_single_solution, process_setting, process_rounding_result,
      appendStats, initialize_load_dict, dset, dlookup, List.mapM.loop,
      nullSol, nullScenario, nullAttempt, c4LP]
  refine ⟨hEval, ?_⟩
  rw [hEval]
  decide

/-- Witness for C5's amended theorem at the concrete all-null collection. -/
theorem reduce_single_solution_null_setting_witness :
    (("p", [nullAttempt]) ∈ nullSol.solutions
      ∧ (∀ rr ∈ [nullAttempt], rr.solution = none)
      ∧ (nullSol.solutions.map Prod.fst).Nodup)
    ∧ ∃ red, reduce_single_solution nullSol = some red
        ∧ dlookup red.best_solution_embedding_ratio "p" = some (-1)
        ∧ dlookup red.best_solution_load "p"
            = some (initialize_load_dict nullSol.scenario) := by
  have hall : ∀ p ∈ nullSol.solutions, ∃ a,
      process_setting nullSol.scenario nullSol.scenario.requests.length p.2
        = some a := by
    intro p hp
    simp [nullSol] at hp
    subst hp
    obtain ⟨a, ha, _⟩ :=
      process_setting_all_null nullSol.scenario nullSol.scenario.requests.length
        [nullAttempt] (by simp [nullAttempt])
    exact ⟨a, ha⟩
  exact ⟨⟨by simp [nullSol], by simp [nullAttempt], by simp [nullSol]⟩,
    reduce_single_solution_null_setting nullSol "p" [nullAttempt]
      (by simp [nullSol]) (by simp [nullAttempt]) (by simp [nullSol]) hall⟩

end CCR
